import Mathlib

/-!
Verification of the Legal Tabular Review extraction core.

This file gives a shallow embedding of the Python source under
`backend/app/` (the Gemini extraction service in
`services/extractor.py`, the review endpoints in
`api/v1/endpoints/review.py`, the extraction trigger in
`api/v1/endpoints/extraction.py`, and the worker in
`workers/tasks.py`) and proves the frozen specification claims about
it.  Strings are modelled as `List Char`; JSON values as an inductive
type with rational numbers standing in for Python's int/float (the
int/float distinction made by `json.loads` is collapsed); database
state as explicit lists threaded through the endpoint functions; the
LLM as an oracle function from prompt text to response text.
-/

namespace LegalTabular

/-- Python strings are modelled as lists of characters. -/
abbrev Str := List Char

/-- Whitespace for Python's `str.strip()` and the `\s` regex class
(ASCII fragment: space, tab, newline, carriage return, vertical tab,
form feed). -/
def isPyWS (c : Char) : Bool :=
  [32, 9, 10, 13, 11, 12].contains c.toNat

/-- Python `str.strip()`: drop whitespace from both ends. -/
def pyStrip (s : Str) : Str :=
  ((s.dropWhile isPyWS).reverse.dropWhile isPyWS).reverse

/-- A JSON value as produced by `json.loads`.  Numbers are modelled as
rationals (collapsing Python's int/float distinction); object entries
keep their textual order, and lookups return the last binding, as in a
Python dict built by successive assignment. -/
inductive JsonValue where
  | null : JsonValue
  | bool (b : Bool) : JsonValue
  | num (q : ℚ) : JsonValue
  | str (s : Str) : JsonValue
  | arr (items : List JsonValue) : JsonValue
  | obj (entries : List (Str × JsonValue)) : JsonValue

/-- Dict lookup: the last binding of a key wins, as in a Python dict
built from a JSON object with duplicate keys. -/
def objGet (entries : List (Str × JsonValue)) (key : Str) : Option JsonValue :=
  (entries.reverse.find? (fun kv => kv.fst == key)).map (fun kv => kv.snd)

/-- Python `value == "somestring"`: true exactly when the value is that
string (equality across Python types is false). -/
def jsonEqStr (v : JsonValue) (s : Str) : Bool :=
  match v with
  | JsonValue.str t => t == s
  | _ => false

/-- Python truthiness of a JSON-decoded value (`if field_data.get('raw_value')`):
`None`/`null`, `False`, `0`, `""`, `[]` and `{}` are falsy. -/
def jsonTruthy : JsonValue → Bool
  | JsonValue.null => false
  | JsonValue.bool b => b
  | JsonValue.num q => q != 0
  | JsonValue.str s => !s.isEmpty
  | JsonValue.arr items => !items.isEmpty
  | JsonValue.obj entries => !entries.isEmpty

/-- Truthiness of an optional value (`None` is falsy). -/
def pyTruthy : Option JsonValue → Bool
  | none => false
  | some v => jsonTruthy v

/-! ### Python `str(...)` of a JSON-decoded value

Only the string case is exercised by the claims; the remaining cases
are an executable model of CPython's rendering (integer-valued numbers
print without a decimal point, other rationals by their finite decimal
expansion when one exists within 30 digits). -/

/-- Decimal digits of a natural number. -/
def natDigits (n : Nat) : Str := Nat.toDigits 10 n

/-- Python rendering of an integer. -/
def intRepr (i : ℤ) : Str :=
  if i < 0 then '-' :: natDigits i.natAbs else natDigits i.natAbs

/-- Least exponent `k ≤ 30` with `q * 10^k` integral, if any. -/
def decExponent (q : ℚ) : Option Nat :=
  (List.range 31).find? (fun k => (q * (10 : ℚ) ^ k).den == 1)

/-- Model of Python's rendering of a non-integer number: its finite
decimal expansion when one exists (within 30 fractional digits),
otherwise a placeholder. -/
def decimalRepr (q : ℚ) : Str :=
  match decExponent q with
  | none => ("<float>").toList
  | some k =>
    let m : ℤ := (q * (10 : ℚ) ^ k).num
    let ds := natDigits m.natAbs
    let ds := List.replicate (k + 1 - ds.length) '0' ++ ds
    let whole := ds.take (ds.length - k)
    let frac := ds.drop (ds.length - k)
    (if m < 0 then ['-'] else []) ++ whole ++ '.' :: frac

/-- Model of Python `repr` for decoded JSON values (used for `str` of a
list or dict; string quoting is single-quote, escaping elided). -/
def pyRepr : JsonValue → Str
  | JsonValue.null => ("None").toList
  | JsonValue.bool b => if b then ("True").toList else ("False").toList
  | JsonValue.num q => if q.den = 1 then intRepr q.num else decimalRepr q
  | JsonValue.str s => '\'' :: s ++ ['\'']
  | JsonValue.arr items =>
    '[' :: (List.intercalate ((", ").toList) (items.attach.map (fun x => pyRepr x.1))) ++ [']']
  | JsonValue.obj entries =>
    Char.ofNat 123 ::
      (List.intercalate ((", ").toList)
        (entries.attach.map (fun kv =>
          ('\'' :: kv.1.1 ++ ['\'']) ++ (": ").toList ++ pyRepr kv.1.2))) ++
      [Char.ofNat 125]
termination_by v => sizeOf v
decreasing_by
  all_goals simp_wf
  · have h := List.sizeOf_lt_of_mem x.2
    omega
  · have h := List.sizeOf_lt_of_mem kv.2
    obtain ⟨⟨a, b⟩, hmem⟩ := kv
    simp at h ⊢
    omega

/-- Python `str(...)` of a decoded JSON value. -/
def pyStr : JsonValue → Str
  | JsonValue.str s => s
  | JsonValue.null => ("None").toList
  | JsonValue.bool b => if b then ("True").toList else ("False").toList
  | JsonValue.num q => if q.den = 1 then intRepr q.num else decimalRepr q
  | JsonValue.arr items => pyRepr (JsonValue.arr items)
  | JsonValue.obj entries => pyRepr (JsonValue.obj entries)

/-! ### A model of `json.loads`

Fuel-indexed recursive-descent parser for the JSON accepted by
Python's `json.loads` (strict mode: raw control characters are
rejected inside strings; numbers follow the JSON grammar; astral
`\uXXXX` surrogate pairing is not modelled).  Returns `none` exactly
when `json.loads` would raise `JSONDecodeError`. -/

/-- JSON inter-token whitespace (` \t\n\r`). -/
def isJsonWS (c : Char) : Bool :=
  [32, 9, 10, 13].contains c.toNat

/-- Hex digit value (decimal digits, then the two letter ranges by
character code). -/
def hexVal (c : Char) : Option Nat :=
  let n := c.toNat
  if 48 ≤ n && n ≤ 57 then some (n - 48)
  else if 97 ≤ n && n ≤ 102 then some (n - 87)
  else if 65 ≤ n && n ≤ 70 then some (n - 55)
  else none

/-- Parse the body of a JSON string after the opening quote. -/
def parseJsonString : Nat → Str → Option (Str × Str)
  | 0, _ => none
  | _, [] => none
  | fuel + 1, c :: rest =>
    if c = '"' then some ([], rest)
    else if c = '\\' then
      match rest with
      | [] => none
      | e :: rest2 =>
        let cont (ch : Char) (r : Str) : Option (Str × Str) :=
          (parseJsonString fuel r).map (fun p => (ch :: p.fst, p.snd))
        if e = '"' then cont '"' rest2
        else if e = '\\' then cont '\\' rest2
        else if e = '/' then cont '/' rest2
        else if e = 'b' then cont (Char.ofNat 8) rest2
        else if e = 'f' then cont (Char.ofNat 12) rest2
        else if e = 'n' then cont '\n' rest2
        else if e = 'r' then cont '\r' rest2
        else if e = 't' then cont '\t' rest2
        else if e = 'u' then
          match rest2 with
          | h1 :: h2 :: h3 :: h4 :: rest3 =>
            match hexVal h1, hexVal h2, hexVal h3, hexVal h4 with
            | some a, some b, some c3, some d =>
              cont (Char.ofNat (((a * 16 + b) * 16 + c3) * 16 + d)) rest3
            | _, _, _, _ => none
          | _ => none
        else none
    else if c.toNat < 32 then none  -- strict mode: raw control characters rejected
    else (parseJsonString fuel rest).map (fun p => (c :: p.fst, p.snd))

/-- Digits `0`-`9`. -/
def isDigit (c : Char) : Bool := '0' ≤ c && c ≤ '9'

/-- Natural number value of a digit string. -/
def digitsToNat (ds : Str) : Nat :=
  ds.foldl (fun acc c => 10 * acc + (c.toNat - 48)) 0

/-- Parse a JSON number (grammar `-?(0|[1-9][0-9]*)(\.[0-9]+)?([eE][+-]?[0-9]+)?`). -/
def parseJsonNumber (l : Str) : Option (ℚ × Str) :=
  let (sign, l1) : ℚ × Str := match l with
    | '-' :: r => (-1, r)
    | _ => (1, l)
  let intDigits := l1.takeWhile isDigit
  let l2 := l1.dropWhile isDigit
  if intDigits = [] then none
  else if intDigits.length > 1 && intDigits.head? = some '0' then none
  else
    let (fracDigits, l3) : Str × Str := match l2 with
      | '.' :: r => (r.takeWhile isDigit, r.dropWhile isDigit)
      | _ => ([], l2)
    if l2.head? = some '.' && fracDigits = [] then none
    else
      let parseExp (l4 : Str) : Option (ℤ × Str) :=
        match l4 with
        | e :: r =>
          if e = 'e' || e = 'E' then
            let (esign, r1) : ℤ × Str := match r with
              | '+' :: r2 => (1, r2)
              | '-' :: r2 => (-1, r2)
              | _ => (1, r)
            let eDigits := r1.takeWhile isDigit
            if eDigits = [] then none
            else some (esign * (digitsToNat eDigits : ℤ), r1.dropWhile isDigit)
          else some (0, l4)
        | [] => some (0, [])
      match parseExp l3 with
      | none => none
      | some (e, rest) =>
        let mantissa : ℚ := (digitsToNat intDigits : ℚ) +
          (digitsToNat fracDigits : ℚ) / (10 : ℚ) ^ fracDigits.length
        let scaled : ℚ :=
          if 0 ≤ e then mantissa * (10 : ℚ) ^ e.natAbs
          else mantissa / (10 : ℚ) ^ e.natAbs
        some (sign * scaled, rest)

mutual

/-- Parse one JSON value (leading whitespace skipped). -/
def parseJsonValue : Nat → Str → Option (JsonValue × Str)
  | 0, _ => none
  | fuel + 1, l =>
    let l := l.dropWhile isJsonWS
    match l with
    | [] => none
    | c :: rest =>
      if c = 'n' then
        if ("ull").toList.isPrefixOf rest then some (JsonValue.null, rest.drop 3) else none
      else if c = 't' then
        if ("rue").toList.isPrefixOf rest then some (JsonValue.bool true, rest.drop 3) else none
      else if c = 'f' then
        if ("alse").toList.isPrefixOf rest then some (JsonValue.bool false, rest.drop 4) else none
      else if c = '"' then
        (parseJsonString (rest.length + 1) rest).map (fun p => (JsonValue.str p.fst, p.snd))
      else if c = '[' then
        let r := rest.dropWhile isJsonWS
        match r with
        | ']' :: r2 => some (JsonValue.arr [], r2)
        | _ => (parseJsonElems fuel rest).map (fun p => (JsonValue.arr p.fst, p.snd))
      else if c = Char.ofNat 123 then
        let r := rest.dropWhile isJsonWS
        match r with
        | c2 :: r2 =>
          if c2 = Char.ofNat 125 then some (JsonValue.obj [], r2)
          else (parseJsonMembers fuel rest).map (fun p => (JsonValue.obj p.fst, p.snd))
        | [] => none
      else
        (parseJsonNumber l).map (fun p => (JsonValue.num p.fst, p.snd))

/-- Parse the non-empty element list of a JSON array, up to and
including the closing bracket. -/
def parseJsonElems : Nat → Str → Option (List JsonValue × Str)
  | 0, _ => none
  | fuel + 1, l =>
    match parseJsonValue fuel l with
    | none => none
    | some (v, rest) =>
      let r := rest.dropWhile isJsonWS
      match r with
      | ']' :: r2 => some ([v], r2)
      | ',' :: r2 =>
        (parseJsonElems fuel r2).map (fun p => (v :: p.fst, p.snd))
      | _ => none

/-- Parse the non-empty member list of a JSON object, up to and
including the closing brace. -/
def parseJsonMembers : Nat → Str → Option (List (Str × JsonValue) × Str)
  | 0, _ => none
  | fuel + 1, l =>
    let l := l.dropWhile isJsonWS
    match l with
    | '"' :: rest =>
      match parseJsonString (rest.length + 1) rest with
      | none => none
      | some (key, rest2) =>
        let r := rest2.dropWhile isJsonWS
        match r with
        | ':' :: r2 =>
          match parseJsonValue fuel r2 with
          | none => none
          | some (v, rest3) =>
            let r3 := rest3.dropWhile isJsonWS
            match r3 with
            | c :: r4 =>
              if c = Char.ofNat 125 then some ([(key, v)], r4)
              else if c = ',' then
                (parseJsonMembers fuel r4).map (fun p => ((key, v) :: p.fst, p.snd))
              else none
            | [] => none
        | _ => none
    | _ => none

end

/-- Model of `json.loads`: parse a complete JSON document, requiring
only whitespace after the value. -/
def jsonLoads (l : Str) : Option JsonValue :=
  match parseJsonValue (2 * l.length + 4) l with
  | none => none
  | some (v, rest) => if rest.dropWhile isJsonWS = [] then some v else none

/-! ### Locating the JSON array in a model response

`GeminiExtractor._parse_response` first tries the fenced pattern
`` ```(?:json)?\s*(\[.*?\])\s*``` `` (DOTALL), then the bare pattern
`(\[.*\])` (DOTALL).  Both are modelled by explicit leftmost scans
with the regex engine's greedy/lazy behaviour specialised to these
patterns (adjacent character classes are disjoint, so no further
backtracking arises). -/

/-- Lazy scan for the close of a fenced array: the shortest body whose
closing `]` is followed by optional whitespace and three backticks.
`acc` is the reversed body scanned so far (including the opening `[`). -/
def fenceClose : Str → Str → Option Str
  | [], _ => none
  | c :: rest, acc =>
    if c = ']' && ("```").toList.isPrefixOf (rest.dropWhile isPyWS) then
      some ((c :: acc).reverse)
    else fenceClose rest (c :: acc)

/-- Try the fenced pattern anchored at the start of `l`: three
backticks, an optional `json` tag, whitespace, then the lazily-closed
bracketed group. -/
def tryFenceAt (l : Str) : Option Str :=
  if ("```").toList.isPrefixOf l then
    let r := l.drop 3
    let r := if ("json").toList.isPrefixOf r then r.drop 4 else r
    match r.dropWhile isPyWS with
    | '[' :: rest => fenceClose rest ['[']
    | _ => none
  else none

/-- Leftmost search for the fenced pattern. -/
def locateFenced : Str → Option Str
  | [] => none
  | c :: rest =>
    match tryFenceAt (c :: rest) with
    | some g => some g
    | none => locateFenced rest

/-- The bare pattern `(\[.*\])` with DOTALL: from the first `[` to the
last `]` after it, if any. -/
def locateBare (l : Str) : Option Str :=
  match l.dropWhile (fun c => c != '[') with
  | [] => none
  | c :: rest =>
    let r := rest.reverse.dropWhile (fun d => d != ']')
    if r.isEmpty then none else some (c :: r.reverse)

/-- The span of the response that `_parse_response` passes to
`json.loads`: the fenced candidate if one matches, else the bare one. -/
def locateJsonSpan (l : Str) : Option Str :=
  match locateFenced l with
  | some g => some g
  | none => locateBare l

/-! ### The field normalizer (`GeminiExtractor._normalize_value`)

Date, number, boolean and list normalization.  The three date regexes
and the number regex are modelled by leftmost scans specialised to
their patterns; `re.IGNORECASE` is honoured where letters occur. -/

/-- First match of the ISO pattern `(\d{4})-(\d{2})-(\d{2})` anchored
at the start of `l`. -/
def matchIsoAt (l : Str) : Option Str :=
  match l with
  | a :: b :: c :: d :: e :: f :: g :: h :: i :: j :: _ =>
    if isDigit a && isDigit b && isDigit c && isDigit d && e = '-' &&
       isDigit f && isDigit g && h = '-' && isDigit i && isDigit j then
      some [a, b, c, d, e, f, g, h, i, j]
    else none
  | _ => none

/-- First match of the slash pattern `(\d{2})/(\d{2})/(\d{4})` anchored
at the start of `l`. -/
def matchSlashAt (l : Str) : Option Str :=
  match l with
  | a :: b :: c :: d :: e :: f :: g :: h :: i :: j :: _ =>
    if isDigit a && isDigit b && c = '/' && isDigit d && isDigit e && f = '/' &&
       isDigit g && isDigit h && isDigit i && isDigit j then
      some [a, b, c, d, e, f, g, h, i, j]
    else none
  | _ => none

/-- Month alternation of the spelled-month date pattern. -/
def monthAbbrevs : List Str :=
  [("Jan").toList, ("Feb").toList, ("Mar").toList, ("Apr").toList,
   ("May").toList, ("Jun").toList, ("Jul").toList, ("Aug").toList,
   ("Sep").toList, ("Oct").toList, ("Nov").toList, ("Dec").toList]

/-- ASCII letter (what `[a-z]*` matches under `re.IGNORECASE`),
tested by character code. -/
def isAsciiLetter (c : Char) : Bool :=
  let n := c.toNat
  (97 ≤ n && n ≤ 122) || (65 ≤ n && n ≤ 90)

/-- Case-insensitive prefix test. -/
def icPrefix (p : Str) (l : Str) : Bool :=
  (p.map Char.toLower).isPrefixOf (l.map Char.toLower)

/-- Match of the spelled-month pattern
`(\d{1,2})\s+(Jan|Feb|...|Dec)[a-z]*\s+(\d{4})` (IGNORECASE) anchored
at the start of `l`.  `\d{1,2}` is greedy with backtracking: a run of
three or more digits can satisfy neither alternative, because the
character after the consumed digits must be whitespace. -/
def matchSpelledAt (l : Str) : Option Str :=
  let dayRun := l.takeWhile isDigit
  if dayRun.length = 0 || dayRun.length > 2 then none
  else
    let rest1 := l.drop dayRun.length
    let ws1 := rest1.takeWhile isPyWS
    if ws1.isEmpty then none
    else
      let rest2 := rest1.drop ws1.length
      if (monthAbbrevs.filter (fun m => icPrefix m rest2)).isEmpty then none
      else
        let monthPart := rest2.take 3
        let rest3 := rest2.drop 3
        let letters := rest3.takeWhile isAsciiLetter
        let rest4 := rest3.drop letters.length
        let ws2 := rest4.takeWhile isPyWS
        if ws2.isEmpty then none
        else
          let rest5 := rest4.drop ws2.length
          let year := rest5.take 4
          if year.length = 4 && year.all isDigit then
            some (dayRun ++ ws1 ++ monthPart ++ letters ++ ws2 ++ year)
          else none

/-- Leftmost search with an anchored matcher (`re.search`). -/
def reSearch (m : Str → Option Str) : Str → Option Str
  | [] => m []
  | c :: rest =>
    match m (c :: rest) with
    | some g => some g
    | none => reSearch m rest

/-- The ordered date-pattern search of the DATE branch: each pattern in
order, returning the first pattern's first match. -/
def dateFirstMatch (s : Str) : Option Str :=
  match reSearch matchIsoAt s with
  | some m => some m
  | none =>
    match reSearch matchSlashAt s with
    | some m => some m
    | none => reSearch matchSpelledAt s

/-- Match of the number pattern `-?[\d,]+\.?\d*` anchored at the start
of `l` (greedy; the adjacent pieces are disjoint, so no backtracking
changes the result). -/
def matchNumberAt (l : Str) : Option Str :=
  let (sign, l1) : Str × Str := match l with
    | '-' :: r => (['-'], r)
    | _ => ([], l)
  let run := l1.takeWhile (fun c => isDigit c || c = ',')
  if run.isEmpty then none
  else
    let l2 := l1.drop run.length
    let (dot, l3) : Str × Str := match l2 with
      | '.' :: r => (['.'], r)
      | _ => ([], l2)
    some (sign ++ run ++ dot ++ l3.takeWhile isDigit)

/-- Python `.lower()`. -/
def pyLower (s : Str) : Str := s.map Char.toLower

/-- Split on `[,;]` (the LIST branch's `re.split`). -/
def splitCommaSemi (s : Str) : List Str :=
  s.foldr
    (fun c acc =>
      if c = ',' || c = ';' then [] :: acc
      else match acc with
        | cur :: rest => (c :: cur) :: rest
        | [] => [[c]])
    [[]]

/-- Values for the `FieldType` enum in `models/__init__.py`. -/
def fieldTypeDATE : Str := ("DATE").toList
def fieldTypeNUMBER : Str := ("NUMBER").toList
def fieldTypeBOOLEAN : Str := ("BOOLEAN").toList
def fieldTypeLIST : Str := ("LIST").toList

/-- The typed dispatch of `_normalize_value` after the null/empty
guards: `raw` is the stripped, non-empty raw string.  The enclosing
`try` of the source cannot fire in this pure model, so the fallback
arm is the TEXT/unknown case. -/
def normalizeTyped (raw : Str) (fieldType : Str) : Str :=
  if fieldType = fieldTypeDATE then
    match dateFirstMatch raw with
    | some m => m
    | none => raw
  else if fieldType = fieldTypeNUMBER then
    match reSearch matchNumberAt raw with
    | some m => m.filter (fun c => c ≠ ',')
    | none => raw
  else if fieldType = fieldTypeBOOLEAN then
    let lower := pyLower raw
    if lower = ("yes").toList || lower = ("true").toList ||
       lower = ("1").toList || lower = ("y").toList then ("true").toList
    else if lower = ("no").toList || lower = ("false").toList ||
       lower = ("0").toList || lower = ("n").toList then ("false").toList
    else raw
  else if fieldType = fieldTypeLIST then
    if raw.contains ',' || raw.contains ';' then
      let items := (splitCommaSemi raw).map pyStrip
      List.intercalate ((", ").toList) (items.filter (fun i => ¬ i.isEmpty))
    else raw
  else raw

/-- `GeminiExtractor._normalize_value`: `None` and the literal string
`"null"` normalize to `None`; a value whose `str(...)` strips to empty
normalizes to `None`; otherwise the type-directed dispatch runs on the
stripped string.  The unused `normalization_strategy` parameter of the
source is kept for shape. -/
def normalizeValue (rawValue : Option JsonValue) (fieldType : Str)
    (_normalizationStrategy : Option Str) : Option Str :=
  match rawValue with
  | none => none
  | some v =>
    if jsonEqStr v (("null").toList) then none
    else
      let s := pyStrip (pyStr v)
      if s.isEmpty then none else some (normalizeTyped s fieldType)

/-! ### Field definitions and extracted field results -/

/-- A field definition from a template (`template.fields` entries).
`get`-style optional keys are modelled as `Option` fields. -/
structure FieldDef where
  field_id : Str
  field_name : Str
  field_type : Str
  required : Bool := false
  extraction_prompt : Option Str := none
  validation_rules : Option JsonValue := none
  normalization : Option Str := none

/-- One extracted field dictionary as built by `_parse_response`:
`raw_value` keeps the model's value verbatim (`None` for an absent key
or JSON `null`), `normalized_value` is the normalizer's output,
`confidence_score` is clamped, `citations` is whatever the model sent
(default `[]`). -/
structure ExtractedField where
  field_id : Str
  raw_value : Option JsonValue
  normalized_value : Option Str
  confidence_score : ℚ
  citations : JsonValue

/-- The null/zero-confidence placeholder synthesized for a definition
not represented in the response (and by the chunk merge). -/
def nullField (fid : Str) : ExtractedField :=
  { field_id := fid
    raw_value := none
    normalized_value := none
    confidence_score := 0
    citations := JsonValue.arr [] }

/-- Python `float(x)` on a decoded JSON value: numbers pass through,
booleans become 0/1, numeric strings are parsed, anything else raises
(`TypeError`/`ValueError`), which the source's generic handler turns
into an `ExtractionError`.  String parsing is modelled for plain
finite decimals (the special spellings `inf`/`nan` are not). -/
def pyFloat (v : JsonValue) : Except Str ℚ :=
  match v with
  | JsonValue.num q => Except.ok q
  | JsonValue.bool b => Except.ok (if b then 1 else 0)
  | JsonValue.str s =>
    let t := pyStrip s
    let (sign, t1) : ℚ × Str := match t with
      | '-' :: r => (-1, r)
      | '+' :: r => (1, r)
      | _ => (1, t)
    let intDigits := t1.takeWhile isDigit
    let t2 := t1.dropWhile isDigit
    let (fracDigits, t3) : Str × Str := match t2 with
      | '.' :: r => (r.takeWhile isDigit, r.dropWhile isDigit)
      | _ => ([], t2)
    if (intDigits.isEmpty && fracDigits.isEmpty) || ¬ t3.isEmpty then
      Except.error (("ValueError: could not convert string to float").toList)
    else
      Except.ok (sign * ((digitsToNat intDigits : ℚ) +
        (digitsToNat fracDigits : ℚ) / (10 : ℚ) ^ fracDigits.length))
  | _ => Except.error (("TypeError: float() argument").toList)

/-- Python substring test `needle in hay`. -/
def strContains (needle : Str) : Str → Bool
  | [] => needle.isPrefixOf []
  | c :: rest => needle.isPrefixOf (c :: rest) || strContains needle rest

/-- Python `'field_id' in item` for a non-dict item: substring test for
strings, membership for lists, `TypeError` otherwise. -/
def fieldIdKey : Str := ("field_id").toList

/-- Processing of one decoded item inside the validation loop of
`_parse_response`: `ok none` models `continue`, `ok (some f)` an
appended validated field, `error` an exception escaping to the generic
handler. -/
def pyItemStep (item : JsonValue) (fds : List FieldDef) : Except Str (Option ExtractedField) :=
  match item with
  | JsonValue.obj kvs =>
    match objGet kvs fieldIdKey with
    | none => Except.ok none  -- 'field_id' not in item: continue
    | some fidVal =>
      -- next(f for f in field_definitions if f['field_id'] == item['field_id'])
      match fds.find? (fun fd => jsonEqStr fidVal fd.field_id) with
      | none => Except.ok none  -- unknown field_id: continue
      | some fd =>
        -- item.get('raw_value'): absent key and JSON null both give None
        let raw : Option JsonValue :=
          match objGet kvs (("raw_value").toList) with
          | none => none
          | some JsonValue.null => none
          | some v => some v
        let conf : JsonValue :=
          (objGet kvs (("confidence_score").toList)).getD (JsonValue.num (1 / 2))
        match pyFloat conf with
        | Except.error e => Except.error e
        | Except.ok c =>
          Except.ok (some
            { field_id := fd.field_id  -- equals item['field_id'] by the find? predicate
              raw_value := raw
              normalized_value := normalizeValue raw fd.field_type fd.normalization
              confidence_score := min 1 (max 0 c)
              citations := (objGet kvs (("citations").toList)).getD (JsonValue.arr []) })
  | JsonValue.str s =>
    -- 'field_id' not in item is a substring test; when it succeeds the
    -- subsequent item['field_id'] raises TypeError
    if strContains fieldIdKey s then Except.error (("TypeError: string indices").toList)
    else Except.ok none
  | JsonValue.arr xs =>
    if xs.any (fun v => jsonEqStr v fieldIdKey) then
      Except.error (("TypeError: list indices").toList)
    else Except.ok none
  | _ => Except.error (("TypeError: argument not iterable").toList)

/-- The validation loop of `_parse_response` over the decoded array. -/
def processItems : List JsonValue → List FieldDef → Except Str (List ExtractedField)
  | [], _ => Except.ok []
  | item :: rest, fds =>
    match pyItemStep item fds with
    | Except.error e => Except.error e
    | Except.ok none => processItems rest fds
    | Except.ok (some f) => (processItems rest fds).map (fun l => f :: l)

/-- The completion loop of `_parse_response`: walk the definitions and
append a placeholder for every `field_id` not already present in the
(growing) validated list. -/
def ensureAll (validated : List ExtractedField) (fds : List FieldDef) : List ExtractedField :=
  fds.foldl
    (fun acc fd =>
      if acc.any (fun f => f.field_id == fd.field_id) then acc
      else acc ++ [nullField fd.field_id])
    validated

/-- The decoded item list of a response, when the located span decodes
to a JSON array. -/
def parsedItems (resp : Str) : Option (List JsonValue) :=
  match locateJsonSpan resp with
  | none => none
  | some span =>
    match jsonLoads span with
    | some (JsonValue.arr items) => some items
    | _ => none

/-- `GeminiExtractor._parse_response`: locate the JSON span, decode it,
require an array, validate items, and complete missing definitions.
Every failure raises `ExtractionError`, modelled as `Except.error`. -/
def parseResponse (resp : Str) (fds : List FieldDef) : Except Str (List ExtractedField) :=
  match locateJsonSpan resp with
  | none => Except.error (("Failed to parse response: No JSON array found in response").toList)
  | some span =>
    match jsonLoads span with
    | none => Except.error (("Failed to parse LLM response as JSON").toList)
    | some (JsonValue.arr items) =>
      (processItems items fds).map (fun validated => ensureAll validated fds)
    | some _ => Except.error (("Failed to parse response: Response is not a JSON array").toList)

/-! ### The chunker (`GeminiExtractor._create_chunks`)

The source's `while` loop appends `text[start:start+chunk_size]`,
stops when the window reaches the end, and otherwise restarts at
`end - overlap`.  The loop is modelled with explicit fuel; under the
valid parameter range `overlap < chunk_size` each iteration advances
`start`, so `text.length + 1` units of fuel always suffice. -/

def createChunksGo (text : Str) (chunkSize overlap : Nat) : Nat → Nat → List Str
  | 0, _ => []
  | fuel + 1, start =>
    if start < text.length then
      let chunk := (text.drop start).take chunkSize
      if text.length ≤ start + chunkSize then [chunk]
      else chunk :: createChunksGo text chunkSize overlap fuel (start + chunkSize - overlap)
    else []

/-- `GeminiExtractor._create_chunks`. -/
def createChunks (text : Str) (chunkSize overlap : Nat) : List Str :=
  createChunksGo text chunkSize overlap (text.length + 1) 0

/-- Concatenation of chunks with each subsequent chunk stripped of its
first `overlap` characters — the reconstruction the spec asserts. -/
def reconcat (overlap : Nat) : List Str → Str
  | [] => []
  | c :: rest => c ++ (rest.map (List.drop overlap)).flatten

/-! ### The chunk merge (`GeminiExtractor._merge_chunk_results`) -/

/-- Python `max(xs, key=lambda x: x.get('confidence_score', 0))`: the
first element attaining the maximal key (strict comparison keeps the
incumbent on ties). -/
def pyMaxByConf : List ExtractedField → Option ExtractedField
  | [] => none
  | x :: xs =>
    some (xs.foldl (fun best f =>
      if best.confidence_score < f.confidence_score then f else best) x)

/-- The per-field candidate list of the merge: for each chunk, the
first result with the sought `field_id`, kept only when its
`raw_value` is truthy. -/
def fieldCandidates (chunkResults : List (List ExtractedField)) (fid : Str) :
    List ExtractedField :=
  chunkResults.filterMap (fun chunkResult =>
    match chunkResult.find? (fun f => f.field_id == fid) with
    | some f => if pyTruthy f.raw_value then some f else none
    | none => none)

/-- The merged result for one field definition. -/
def mergeField (chunkResults : List (List ExtractedField)) (fd : FieldDef) : ExtractedField :=
  match pyMaxByConf (fieldCandidates chunkResults fd.field_id) with
  | some best => best
  | none => nullField fd.field_id

/-- `GeminiExtractor._merge_chunk_results`. -/
def mergeChunkResults (chunkResults : List (List ExtractedField))
    (fds : List FieldDef) : List ExtractedField :=
  fds.map (mergeField chunkResults)

/-! ### The extraction prompt (`GeminiExtractor._build_extraction_prompt`)

The prompt f-string is transcribed pieceise; `json.dumps` is modelled
below (compact for validation rules, `indent=2` for the output
example).  The exact rendering of the fixed blocks is immaterial to
the claims; what matters is that the document text enters only as
`document_text[:30000]`. -/

/-- JSON string escaping of `json.dumps` (`ensure_ascii=True`): quote,
backslash, the short control escapes, `\uXXXX` for other control or
non-ASCII characters (astral characters would use surrogate pairs,
not modelled). -/
def jsonEscapeChar (c : Char) : Str :=
  if c = '"' then ['\\', '"']
  else if c = '\\' then ['\\', '\\']
  else if c = '\n' then ['\\', 'n']
  else if c = '\r' then ['\\', 'r']
  else if c = '\t' then ['\\', 't']
  else if c = Char.ofNat 8 then ['\\', 'b']
  else if c = Char.ofNat 12 then ['\\', 'f']
  else if c.toNat < 32 || c.toNat > 126 then
    let hex := Nat.toDigits 16 c.toNat
    ['\\', 'u'] ++ List.replicate (4 - hex.length) '0' ++ hex
  else [c]

/-- `json.dumps` of a string. -/
def jsonDumpsStr (s : Str) : Str :=
  '"' :: (s.map jsonEscapeChar).flatten ++ ['"']

/-- Number rendering of `json.dumps` (shared with `str`). -/
def jsonDumpsNum (q : ℚ) : Str :=
  if q.den = 1 then intRepr q.num else decimalRepr q

/-- Compact `json.dumps` (default separators `", "` and `": "`). -/
def jsonDumps : JsonValue → Str
  | JsonValue.null => ("null").toList
  | JsonValue.bool b => if b then ("true").toList else ("false").toList
  | JsonValue.num q => jsonDumpsNum q
  | JsonValue.str s => jsonDumpsStr s
  | JsonValue.arr items =>
    '[' :: (List.intercalate ((", ").toList) (items.attach.map (fun x => jsonDumps x.1))) ++ [']']
  | JsonValue.obj entries =>
    Char.ofNat 123 ::
      (List.intercalate ((", ").toList)
        (entries.attach.map (fun kv =>
          jsonDumpsStr kv.1.1 ++ (": ").toList ++ jsonDumps kv.1.2))) ++
      [Char.ofNat 125]
termination_by v => sizeOf v
decreasing_by
  all_goals simp_wf
  · have h := List.sizeOf_lt_of_mem x.2
    omega
  · have h := List.sizeOf_lt_of_mem kv.2
    obtain ⟨⟨a, b⟩, hmem⟩ := kv
    simp at h ⊢
    omega

/-- `json.dumps(..., indent=2)` at nesting depth `depth` (separators
become `","` followed by newline-and-indent, and `": "`; empty
containers stay on one line). -/
def jsonDumpsInd : JsonValue → Nat → Str
  | JsonValue.null, _ => ("null").toList
  | JsonValue.bool b, _ => if b then ("true").toList else ("false").toList
  | JsonValue.num q, _ => jsonDumpsNum q
  | JsonValue.str s, _ => jsonDumpsStr s
  | JsonValue.arr items, depth =>
    if items.isEmpty then ("[]").toList
    else
      let inner := List.replicate (2 * (depth + 1)) ' '
      '[' :: '\n' ::
        (List.intercalate (',' :: '\n' :: inner)
          (items.attach.map (fun x => inner ++ jsonDumpsInd x.1 (depth + 1)))) ++
        '\n' :: List.replicate (2 * depth) ' ' ++ [']']
  | JsonValue.obj entries, depth =>
    if entries.isEmpty then [Char.ofNat 123, Char.ofNat 125]
    else
      let inner := List.replicate (2 * (depth + 1)) ' '
      Char.ofNat 123 :: '\n' ::
        (List.intercalate (',' :: '\n' :: inner)
          (entries.attach.map (fun kv =>
            inner ++ jsonDumpsStr kv.1.1 ++ (": ").toList ++ jsonDumpsInd kv.1.2 (depth + 1)))) ++
        '\n' :: List.replicate (2 * depth) ' ' ++ [Char.ofNat 125]
termination_by v _ => sizeOf v
decreasing_by
  all_goals simp_wf
  · have h := List.sizeOf_lt_of_mem x.2
    omega
  · have h := List.sizeOf_lt_of_mem kv.2
    obtain ⟨⟨a, b⟩, hmem⟩ := kv
    simp at h ⊢
    omega

/-- One field's block in the prompt's field section (the per-field
f-string, stripped). -/
def fieldDescription (fd : FieldDef) : Str :=
  pyStrip (
    ("\n- **").toList ++ fd.field_name ++ ("** (ID: `").toList ++ fd.field_id ++
    ("`)\n  - Type: ").toList ++ fd.field_type ++
    ("\n  - Required: ").toList ++ (if fd.required then ("Yes").toList else ("No").toList) ++
    ("\n  - Description: ").toList ++
      (fd.extraction_prompt.getD (("Extract this field value").toList)) ++
    ("\n  - Validation: ").toList ++ jsonDumps (fd.validation_rules.getD (JsonValue.obj [])) ++
    ("\n").toList)

/-- The newline-joined field section. -/
def fieldsSection (fds : List FieldDef) : Str :=
  List.intercalate (("\n").toList) (fds.map fieldDescription)

/-- The output-format example: the first two definitions rendered with
placeholder values. -/
def outputExample (fds : List FieldDef) : JsonValue :=
  JsonValue.arr ((fds.take 2).map (fun fd =>
    JsonValue.obj
      [ (("field_id").toList, JsonValue.str fd.field_id),
        (("raw_value").toList, JsonValue.str (("<extracted value>").toList)),
        (("confidence_score").toList, JsonValue.num (19 / 20)),
        (("citations").toList, JsonValue.arr
          [JsonValue.obj
            [ (("source").toList, JsonValue.str (("page 1, section 2").toList)),
              (("text_snippet").toList, JsonValue.str (("<relevant text snippet>").toList)) ]]) ]))

/-- Everything of the prompt before the interpolated document text. -/
def promptHead (fds : List FieldDef) : Str :=
  ("You are a legal document analysis AI specialized in extracting structured information from legal documents.\n\n**TASK**: Extract the following fields from the provided document:\n\n").toList ++
  fieldsSection fds ++
  ("\n\n**DOCUMENT TEXT**:\n```\n").toList

/-- Everything of the prompt after the interpolated document text
(starting with the f-string's two stray trailing spaces). -/
def promptTail (fds : List FieldDef) : Str :=
  ("  \n```\n\n**EXTRACTION INSTRUCTIONS**:\n1. For each field, extract the most relevant value from the document\n2. If a field value is not found, set raw_value to null\n3. Provide a confidence score (0.0 to 1.0) for each extraction\n4. Include citations showing where in the document you found the information\n5. For DATE fields, normalize to YYYY-MM-DD format\n6. For NUMBER fields, extract numeric values only\n7. For BOOLEAN fields, return \"true\" or \"false\"\n8. For LIST fields, return comma-separated values\n\n**OUTPUT FORMAT** (JSON array):\n```json\n").toList ++
  jsonDumpsInd (outputExample fds) 0 ++
  ("\n```\n\n**IMPORTANT**:\n- Return ONLY the JSON array, no additional text\n- Include ALL fields from the list, even if value is null\n- Be precise with citations - include page numbers or section references\n- Confidence should reflect certainty of extraction\n\n**YOUR JSON OUTPUT**:\n```json\n").toList

/-- `GeminiExtractor._build_extraction_prompt`: the document text is
interpolated as `document_text[:30000]` between the fixed head and
tail. -/
def buildExtractionPrompt (documentText : Str) (fds : List FieldDef) : Str :=
  promptHead fds ++ documentText.take 30000 ++ promptTail fds

/-! ### The extraction pipeline (`GeminiExtractor.extract`)

The LLM is an oracle `llm : Str → Str` from prompt to response text
(`self.llm.invoke(prompt).content`). -/

/-- `GeminiExtractor._extract_single`. -/
def extractSingle (llm : Str → Str) (documentText : Str) (fds : List FieldDef) :
    Except Str (List ExtractedField) :=
  parseResponse (llm (buildExtractionPrompt documentText fds)) fds

/-- `GeminiExtractor._extract_chunked`: chunk with overlap 500, run the
single-call path per chunk (any chunk's failure propagates), then
merge. -/
def extractChunked (llm : Str → Str) (documentText : Str) (fds : List FieldDef)
    (chunkSize : Nat) : Except Str (List ExtractedField) :=
  let chunks := createChunks documentText chunkSize 500
  (chunks.mapM (fun chunk => extractSingle llm chunk fds)).map
    (fun allExtractions => mergeChunkResults allExtractions fds)

/-- The default `chunk_size` of `GeminiExtractor.extract`. -/
def extractDefaultChunkSize : Nat := 50000

/-- `GeminiExtractor.extract`: chunk when the text exceeds
`chunk_size`, else a single call. -/
def extract (llm : Str → Str) (documentText : Str) (fds : List FieldDef)
    (chunkSize : Nat := extractDefaultChunkSize) : Except Str (List ExtractedField) :=
  if chunkSize < documentText.length then extractChunked llm documentText fds chunkSize
  else extractSingle llm documentText fds

/-! ### Review records (`api/v1/endpoints/review.py`)

Database state is modelled as explicit lists.  UUIDs are modelled as
naturals.  `scalar_one_or_none` raises `MultipleResultsFound` when
more than one row matches, returns the row or `None` otherwise. -/

/-- A stored `ReviewRecord` row (identity and audit columns that no
claim touches are elided). -/
structure ReviewRecordM where
  extracted_record_id : Nat
  field_id : Str
  review_status : Str
  manual_value : Option Str
  reviewer_notes : Option Str
  deriving DecidableEq

/-- The `ReviewRecordCreate` request schema. -/
structure ReviewCreateM where
  extracted_record_id : Nat
  field_id : Str
  review_status : Str
  manual_value : Option Str
  reviewer_notes : Option Str
  deriving DecidableEq

/-- A stored `ExtractedRecord` row. -/
structure ExtractedRecordM where
  id : Nat
  document_id : Nat
  field_template_id : Nat
  extraction_status : Str
  extracted_fields : List ExtractedField
  error_message : Option Str

/-- `ExtractionStatus` enum values. -/
def statusCOMPLETED : Str := ("COMPLETED").toList
def statusIN_PROGRESS : Str := ("IN_PROGRESS").toList
def statusFAILED : Str := ("FAILED").toList

/-- The natural-key match of the review upsert. -/
def reviewMatches (d : ReviewCreateM) (r : ReviewRecordM) : Bool :=
  r.extracted_record_id == d.extracted_record_id && r.field_id == d.field_id

/-- Updating an existing review in place with a submission's values. -/
def applyReview (r : ReviewRecordM) (d : ReviewCreateM) : ReviewRecordM :=
  { r with
    review_status := d.review_status
    manual_value := d.manual_value
    reviewer_notes := d.reviewer_notes }

/-- A freshly inserted review row. -/
def newReview (d : ReviewCreateM) : ReviewRecordM :=
  { extracted_record_id := d.extracted_record_id
    field_id := d.field_id
    review_status := d.review_status
    manual_value := d.manual_value
    reviewer_notes := d.reviewer_notes }

/-- Replace the first element satisfying `p` (the ORM mutates the
single row returned by the query). -/
def updateFirst (p : α → Bool) (f : α → α) : List α → List α
  | [] => []
  | x :: xs => if p x then f x :: xs else x :: updateFirst p f xs

/-- The select-then-update-or-insert core shared by
`create_review_record` and `bulk_create_reviews`:
`scalar_one_or_none` on the natural key, update the existing row or
append a new one. -/
def upsertReview (reviews : List ReviewRecordM) (d : ReviewCreateM) :
    Except Str (List ReviewRecordM) :=
  match reviews.filter (reviewMatches d) with
  | [] => Except.ok (reviews ++ [newReview d])
  | [_] => Except.ok (updateFirst (reviewMatches d) (fun r => applyReview r d) reviews)
  | _ => Except.error (("MultipleResultsFound").toList)

/-- `create_review_record`: verify the extracted record exists and (when
it has extracted fields) contains the reviewed field, then upsert. -/
def createReviewRecord (ers : List ExtractedRecordM) (reviews : List ReviewRecordM)
    (d : ReviewCreateM) : Except Str (List ReviewRecordM) :=
  match ers.find? (fun er => er.id == d.extracted_record_id) with
  | none => Except.error (("404: Extracted record not found").toList)
  | some er =>
    if ¬ er.extracted_fields.isEmpty &&
       ¬ er.extracted_fields.any (fun f => f.field_id == d.field_id) then
      Except.error (("400: Field not found in extracted record").toList)
    else upsertReview reviews d

/-- Result of `bulk_create_reviews`: final state plus the created /
updated / errors counters of the response body. -/
structure BulkOutcome where
  reviews : List ReviewRecordM
  created : Nat
  updated : Nat
  errors : Nat
  deriving DecidableEq

/-- One iteration of the bulk loop: select on the natural key, update
or insert, with any raised error recorded and the item skipped.
(`autoflush` makes each iteration's select see the previous
iterations' pending inserts, so threading the state is faithful.) -/
def bulkStep (o : BulkOutcome) (d : ReviewCreateM) : BulkOutcome :=
  match o.reviews.filter (reviewMatches d) with
  | [] =>
    { o with reviews := o.reviews ++ [newReview d], created := o.created + 1 }
  | [_] =>
    { o with
      reviews := updateFirst (reviewMatches d) (fun r => applyReview r d) o.reviews
      updated := o.updated + 1 }
  | _ => { o with errors := o.errors + 1 }

/-- `bulk_create_reviews` over a batch of submissions. -/
def bulkCreateReviews (reviews : List ReviewRecordM) (datas : List ReviewCreateM) :
    BulkOutcome :=
  datas.foldl bulkStep { reviews := reviews, created := 0, updated := 0, errors := 0 }

/-- The rows carrying one `(extracted_record_id, field_id)` key. -/
def keyPred (rid : Nat) (fid : Str) (r : ReviewRecordM) : Bool :=
  r.extracted_record_id == rid && r.field_id == fid

/-- At most one `ReviewRecord` per `(extracted_record_id, field_id)`
pair. -/
def reviewKeyInvariant (reviews : List ReviewRecordM) : Prop :=
  ∀ rid fid, (reviews.filter (keyPred rid fid)).length ≤ 1

/-! ### The review table (`get_project_review_table`) -/

/-- `ReviewStatus` enum values used by the table. -/
def reviewPENDING : Str := ("PENDING").toList
def reviewMISSING_DATA : Str := ("MISSING_DATA").toList

/-- One cell of the review table. -/
structure CellData where
  field_name : Str
  extracted_value : Option JsonValue
  normalized_value : Option Str
  confidence_score : ℚ
  review_status : Str
  manual_value : Option Str
  final_value : Option Str
  citations : JsonValue

/-- The review lookup used per row: the dict comprehension
`{r.field_id: r for r in reviews}` keeps the last review per field. -/
def lastReviewFor (reviews : List ReviewRecordM) (fid : Str) : Option ReviewRecordM :=
  reviews.reverse.find? (fun r => r.field_id == fid)

/-- The cell built for one template field of a COMPLETED extraction:
`extracted_field` is the first extraction result matching the field
(or `None`), `review` the row's review for it (if any). -/
def buildCell (fd : FieldDef) (extractedField : Option ExtractedField)
    (review : Option ReviewRecordM) : CellData :=
  match extractedField with
  | some f =>
    { field_name := fd.field_name
      extracted_value := f.raw_value
      normalized_value := f.normalized_value
      confidence_score := f.confidence_score
      review_status :=
        match review with
        | some r => r.review_status
        | none => reviewPENDING
      manual_value := review.bind (fun r => r.manual_value)
      final_value :=
        -- review.manual_value if review and review.manual_value else normalized
        match review with
        | some r =>
          match r.manual_value with
          | some mv => if mv.isEmpty then f.normalized_value else some mv
          | none => f.normalized_value
        | none => f.normalized_value
      citations := f.citations }
  | none =>
    { field_name := fd.field_name
      extracted_value := none
      normalized_value := none
      confidence_score := 0
      review_status := reviewMISSING_DATA
      manual_value := review.bind (fun r => r.manual_value)
      final_value := review.bind (fun r => r.manual_value)
      citations := JsonValue.arr [] }

/-- The `NOT_EXTRACTED` cell of a document without a COMPLETED
extraction. -/
def notExtractedCell (fd : FieldDef) : CellData :=
  { field_name := fd.field_name
    extracted_value := none
    normalized_value := none
    confidence_score := 0
    review_status := ("NOT_EXTRACTED").toList
    manual_value := none
    final_value := none
    citations := JsonValue.arr [] }

/-- The per-document field data of the review table, as an association
list in template-field order (the source builds a dict keyed by
field_id). -/
def buildRowFields (templateFields : List FieldDef) (extraction : Option ExtractedRecordM)
    (reviews : List ReviewRecordM) : List (Str × CellData) :=
  match extraction with
  | some er =>
    if er.extraction_status = statusCOMPLETED then
      templateFields.map (fun fd =>
        (fd.field_id,
         buildCell fd
           (er.extracted_fields.find? (fun f => f.field_id == fd.field_id))
           (lastReviewFor reviews fd.field_id)))
    else templateFields.map (fun fd => (fd.field_id, notExtractedCell fd))
  | none => templateFields.map (fun fd => (fd.field_id, notExtractedCell fd))

/-! ### Extraction trigger and worker task
(`trigger_extraction` in `endpoints/extraction.py`,
`extract_document_task` in `workers/tasks.py`) -/

/-- A stored `Document` row (columns no claim touches are elided). -/
structure DocumentM where
  id : Nat
  project_id : Nat
  upload_status : Str
  parsed_text : Option Str

/-- A stored `FieldTemplate` row. -/
structure FieldTemplateM where
  id : Nat
  fields : List FieldDef

/-- `UploadStatus.PARSED`. -/
def uploadPARSED : Str := ("PARSED").toList

/-- `trigger_extraction`: 404 for a missing document, 400 when the
document is not PARSED (rejected before anything is queued), 409 when
an extraction already exists and `force_reprocess` is off; otherwise
the task is queued with the `(document_id, field_template_id)`
arguments returned here. -/
def triggerExtraction (docs : List DocumentM) (ers : List ExtractedRecordM)
    (documentId templateId : Nat) (forceReprocess : Bool) : Except Str (Nat × Nat) :=
  match docs.find? (fun d => d.id == documentId) with
  | none => Except.error (("404: Document not found").toList)
  | some doc =>
    if doc.upload_status ≠ uploadPARSED then
      Except.error (("400: Document must be parsed before extraction").toList)
    else if !forceReprocess &&
        (ers.find? (fun er =>
          er.document_id == documentId && er.field_template_id == templateId)).isSome then
      Except.error (("409: Document already extracted").toList)
    else Except.ok (documentId, templateId)

/-- The dictionary status returned by the Celery task body. -/
inductive TaskStatus where
  | success : TaskStatus
  | error (msg : Str) : TaskStatus
  deriving DecidableEq

/-- Key of the task's get-or-create query. -/
def erMatches (documentId templateId : Nat) (er : ExtractedRecordM) : Bool :=
  er.document_id == documentId && er.field_template_id == templateId

/-- `extract_document_task`: look up the document, refuse to run unless
it is PARSED with non-empty parsed text, get-or-create the
`ExtractedRecord` (marking it IN_PROGRESS), run the extractor with the
default chunk size, and record COMPLETED fields or the FAILED error.
`freshId` stands in for the id the store would give a new row. -/
def extractDocumentTask (llm : Str → Str) (docs : List DocumentM)
    (templates : List FieldTemplateM) (ers : List ExtractedRecordM)
    (freshId : Nat) (documentId templateId : Nat) :
    TaskStatus × List ExtractedRecordM :=
  match docs.find? (fun d => d.id == documentId) with
  | none => (TaskStatus.error (("Document not found").toList), ers)
  | some doc =>
    if doc.upload_status ≠ uploadPARSED then
      (TaskStatus.error (("Document not yet parsed").toList), ers)
    else
      match doc.parsed_text with
      | none => (TaskStatus.error (("No parsed text available").toList), ers)
      | some text =>
        if text.isEmpty then
          -- `if not document.parsed_text` is also true for an empty string
          (TaskStatus.error (("No parsed text available").toList), ers)
        else
          match templates.find? (fun t => t.id == templateId) with
          | none => (TaskStatus.error (("Field template not found").toList), ers)
          | some tmpl =>
            let ers1 :=
              if (ers.find? (erMatches documentId templateId)).isSome then
                updateFirst (erMatches documentId templateId)
                  (fun er => { er with
                    extraction_status := statusIN_PROGRESS
                    error_message := none }) ers
              else
                ers ++ [{ id := freshId, document_id := documentId,
                          field_template_id := templateId,
                          extraction_status := statusIN_PROGRESS,
                          extracted_fields := [], error_message := none }]
            match extract llm text tmpl.fields with
            | Except.ok fields =>
              (TaskStatus.success,
               updateFirst (erMatches documentId templateId)
                 (fun er => { er with
                   extracted_fields := fields
                   extraction_status := statusCOMPLETED
                   error_message := none }) ers1)
            | Except.error e =>
              (TaskStatus.error e,
               updateFirst (erMatches documentId templateId)
                 (fun er => { er with
                   extraction_status := statusFAILED
                   error_message := some ((("Extraction failed: ").toList) ++ e) }) ers1)

/-! ## Chunker lemmas -/

/-- Every produced chunk is a `take chunkSize`, hence no longer than
`chunkSize`. -/
theorem createChunksGo_length_le (text : Str) (chunkSize overlap : Nat) :
    ∀ fuel start c, c ∈ createChunksGo text chunkSize overlap fuel start →
      c.length ≤ chunkSize := by
  intro fuel
  induction fuel with
  | zero => intro start c hc; simp [createChunksGo] at hc
  | succ n ih =>
    intro start c hc
    simp only [createChunksGo] at hc
    split at hc
    · split at hc
      · simp only [List.mem_singleton] at hc
        subst hc
        exact List.length_take_le _ _
      · rcases List.mem_cons.mp hc with rfl | hc
        · exact List.length_take_le _ _
        · exact ih _ _ hc
    · simp at hc

/-- With fuel left and the cursor strictly inside the text, the output
starts with the window at the cursor. -/
theorem createChunksGo_cons (text : Str) (chunkSize overlap : Nat) :
    ∀ fuel start, start < text.length → text.length - start < fuel →
      ∃ tail, createChunksGo text chunkSize overlap fuel start =
        ((text.drop start).take chunkSize) :: tail := by
  intro fuel
  cases fuel with
  | zero => intro start hlt hfuel; omega
  | succ n =>
    intro start hlt hfuel
    simp only [createChunksGo, if_pos hlt]
    split
    · exact ⟨[], rfl⟩
    · exact ⟨_, rfl⟩

/-- Every chunk except the last has length exactly `chunkSize`
(provided `overlap < chunkSize`, the loop's valid parameter range). -/
theorem createChunksGo_dropLast_length (text : Str) (chunkSize overlap : Nat)
    (hov : overlap < chunkSize) :
    ∀ fuel start, text.length - start < fuel →
      ∀ c ∈ (createChunksGo text chunkSize overlap fuel start).dropLast,
        c.length = chunkSize := by
  intro fuel
  induction fuel with
  | zero => intro start hfuel; omega
  | succ n ih =>
    intro start hfuel c hc
    simp only [createChunksGo] at hc
    split at hc
    · rename_i hlt
      split at hc
      · simp at hc
      · rename_i hend
        push_neg at hend
        have hlt' : start + chunkSize - overlap < text.length := by omega
        have hfuel' : text.length - (start + chunkSize - overlap) < n := by omega
        obtain ⟨tail, htail⟩ :=
          createChunksGo_cons text chunkSize overlap n (start + chunkSize - overlap) hlt' hfuel'
        rw [htail] at hc
        rw [List.dropLast_cons₂] at hc
        rcases List.mem_cons.mp hc with rfl | hc
        · rw [List.length_take, List.length_drop]
          omega
        · exact ih (start + chunkSize - overlap) (by omega) c (by rw [htail]; exact hc)
    · simp at hc

/-- Consecutive chunks agree on the shared overlap: the last `overlap`
characters of each non-final chunk are the first `overlap` characters
of its successor. -/
theorem createChunksGo_chain (text : Str) (chunkSize overlap : Nat)
    (hov : overlap < chunkSize) :
    ∀ fuel start, text.length - start < fuel →
      List.Chain' (fun a b => a.drop (a.length - overlap) = b.take overlap)
        (createChunksGo text chunkSize overlap fuel start) := by
  intro fuel
  induction fuel with
  | zero => intro start hfuel; omega
  | succ n ih =>
    intro start hfuel
    simp only [createChunksGo]
    split
    · rename_i hlt
      split
      · simp
      · rename_i hend
        push_neg at hend
        have hlt' : start + chunkSize - overlap < text.length := by omega
        have hfuel' : text.length - (start + chunkSize - overlap) < n := by omega
        obtain ⟨tail, htail⟩ :=
          createChunksGo_cons text chunkSize overlap n (start + chunkSize - overlap) hlt' hfuel'
        rw [htail]
        rw [List.chain'_cons]
        constructor
        · have hlen : ((text.drop start).take chunkSize).length = chunkSize := by
            rw [List.length_take, List.length_drop]; omega
          rw [hlen]
          rw [List.drop_take, List.drop_drop]
          rw [List.take_take]
          congr 1
          · omega
          · congr 1; omega
        · rw [← htail]
          exact ih (start + chunkSize - overlap) (by omega)
    · simp

/-- Dropping the first `overlap` characters of every chunk from the
cursor onward and concatenating yields the text from
`start + overlap`. -/
theorem createChunksGo_joinDrops (text : Str) (chunkSize overlap : Nat)
    (hov : overlap < chunkSize) :
    ∀ fuel start, start < text.length → text.length - start < fuel →
      ((createChunksGo text chunkSize overlap fuel start).map (List.drop overlap)).flatten =
        text.drop (start + overlap) := by
  intro fuel
  induction fuel with
  | zero => intro start hlt hfuel; omega
  | succ n ih =>
    intro start hlt hfuel
    simp only [createChunksGo, if_pos hlt]
    split
    · rename_i hend
      simp only [List.map_cons, List.map_nil, List.flatten_cons, List.flatten_nil,
        List.append_nil]
      rw [List.drop_take, List.drop_drop]
      exact List.take_of_length_le (by rw [List.length_drop]; omega)
    · rename_i hend
      push_neg at hend
      have hlt' : start + chunkSize - overlap < text.length := by omega
      have hfuel' : text.length - (start + chunkSize - overlap) < n := by omega
      simp only [List.map_cons, List.flatten_cons]
      rw [ih (start + chunkSize - overlap) hlt' hfuel']
      rw [List.drop_take, List.drop_drop]
      have harr : start + chunkSize - overlap + overlap = start + chunkSize := by omega
      rw [harr]
      have hsplit : text.drop (start + chunkSize) =
          (text.drop (start + overlap)).drop (chunkSize - overlap) := by
        have harr2 : start + overlap + (chunkSize - overlap) = start + chunkSize := by omega
        rw [List.drop_drop, harr2]
      rw [hsplit, List.take_append_drop]

/-- **C3.** For every text and every valid `(chunk_size, overlap)` pair
with `overlap < chunk_size`, `_create_chunks` returns chunks that are
each no longer than `chunk_size`; every chunk except the last has
length exactly `chunk_size`; each non-final chunk's last `overlap`
characters equal its successor's first `overlap` characters; and
concatenating the first chunk with every subsequent chunk stripped of
its first `overlap` characters reconstructs the text exactly. -/
theorem c3_chunker_properties (text : Str) (chunkSize overlap : Nat)
    (hov : overlap < chunkSize) :
    (∀ c ∈ createChunks text chunkSize overlap, c.length ≤ chunkSize) ∧
    (∀ c ∈ (createChunks text chunkSize overlap).dropLast, c.length = chunkSize) ∧
    List.Chain' (fun a b => a.drop (a.length - overlap) = b.take overlap)
      (createChunks text chunkSize overlap) ∧
    reconcat overlap (createChunks text chunkSize overlap) = text := by
  refine ⟨fun c hc => createChunksGo_length_le text chunkSize overlap _ _ c hc,
    fun c hc => createChunksGo_dropLast_length text chunkSize overlap hov _ _ (by omega) c hc,
    createChunksGo_chain text chunkSize overlap hov _ _ (by omega), ?_⟩
  unfold createChunks
  by_cases hlen : 0 < text.length
  · simp only [createChunksGo, if_pos hlen]
    split
    · rename_i hend
      simp only [reconcat, List.map_nil, List.flatten_nil, List.append_nil,
        List.drop_zero]
      exact List.take_of_length_le (by omega)
    · rename_i hend
      push_neg at hend
      simp only [reconcat]
      rw [createChunksGo_joinDrops text chunkSize overlap hov _ _ (by omega) (by omega)]
      rw [List.drop_zero]
      have harr : 0 + chunkSize - overlap + overlap = chunkSize := by omega
      rw [harr, List.take_append_drop]
  · have : text = [] := List.length_eq_zero.mp (by omega)
    subst this
    simp [createChunksGo, reconcat]

/-- Witness for C3 at text `"abcdefgh"`, chunk size 3, overlap 1. -/
theorem c3_chunker_properties_witness :
    1 < 3 ∧
    ((∀ c ∈ createChunks (("abcdefgh").toList) 3 1, c.length ≤ 3) ∧
     (∀ c ∈ (createChunks (("abcdefgh").toList) 3 1).dropLast, c.length = 3) ∧
     List.Chain' (fun a b => a.drop (a.length - 1) = b.take 1)
       (createChunks (("abcdefgh").toList) 3 1) ∧
     reconcat 1 (createChunks (("abcdefgh").toList) 3 1) = ("abcdefgh").toList) :=
  ⟨by decide, c3_chunker_properties (("abcdefgh").toList) 3 1 (by decide)⟩

/-! ## C4: normalizer totality on null and empty input -/

/-- **C4.** The normalizer is a total function by construction (the
source's `try` guard is unreachable in this pure model); moreover
`normalize(None, T) = None` and `normalize("", T) = None` for every
type tag `T` (known or unknown) and every strategy, and any raw string
that strips to empty also normalizes to `None`. -/
theorem c4_normalizer_null_empty (T : Str) (strategy : Option Str) (s : Str)
    (hs : pyStrip s = []) :
    normalizeValue none T strategy = none ∧
    normalizeValue (some (JsonValue.str [])) T strategy = none ∧
    normalizeValue (some (JsonValue.str s)) T strategy = none := by
  refine ⟨rfl, ?_, ?_⟩
  · simp [normalizeValue, jsonEqStr, pyStr, pyStrip]
  · simp only [normalizeValue, pyStr]
    split
    · rfl
    · simp [hs]

/-- Witness for C4 at `T = "DATE"` and the whitespace-only raw value
`" "`. -/
theorem c4_normalizer_null_empty_witness :
    pyStrip ((" ").toList) = [] ∧
    (normalizeValue none (("DATE").toList) none = none ∧
     normalizeValue (some (JsonValue.str [])) (("DATE").toList) none = none ∧
     normalizeValue (some (JsonValue.str ((" ").toList))) (("DATE").toList) none = none) :=
  ⟨by decide, c4_normalizer_null_empty (("DATE").toList) none ((" ").toList) (by decide)⟩

/-! ## C9: the spelled-month date is returned unchanged, but by a match -/

/-- **C9 counterexample.** The claim asserts that no pattern in the
ordered date-pattern set matches a spelled-month date, so that
`"15 January 2024"` survives only via the no-match fallback.  In fact
the third pattern `(\d{1,2})\s+(Jan|...)[a-z]*\s+(\d{4})` matches the
entire value, so the first-match search succeeds and the fallback path
is not taken. -/
theorem c9_spelled_month_counterexample :
    reSearch matchSpelledAt (("15 January 2024").toList) =
      some (("15 January 2024").toList) ∧
    dateFirstMatch (("15 January 2024").toList) =
      some (("15 January 2024").toList) := by
  constructor <;> rfl

/-- **C9 amended.** A DATE field with raw value `"15 January 2024"`
normalizes to `"15 January 2024"` unchanged — but via the
spelled-month pattern of the ordered date-pattern set matching the
entire value and being returned verbatim, not via the documented
no-match fallback path. -/
theorem c9_date_unchanged_amended :
    normalizeValue (some (JsonValue.str (("15 January 2024").toList))) fieldTypeDATE none =
      some (("15 January 2024").toList) ∧
    dateFirstMatch (("15 January 2024").toList) ≠ none := by
  constructor
  · rfl
  · decide

/-! ## C2: the chunk merge -/

/-- `m` is the first-seen maximum-confidence element of `l`. -/
def isFirstMax (l : List ExtractedField) (m : ExtractedField) : Prop :=
  (∃ pre post, l = pre ++ m :: post ∧
    ∀ c ∈ pre, c.confidence_score < m.confidence_score) ∧
  ∀ c ∈ l, c.confidence_score ≤ m.confidence_score

/-- The fold of Python's `max(..., key=...)` keeps the first element
attaining the maximum. -/
theorem pyMaxFold_spec (xs : List ExtractedField) : ∀ b : ExtractedField,
    b.confidence_score ≤
      (xs.foldl (fun best f =>
        if best.confidence_score < f.confidence_score then f else best) b).confidence_score ∧
    (∀ c ∈ xs, c.confidence_score ≤
      (xs.foldl (fun best f =>
        if best.confidence_score < f.confidence_score then f else best) b).confidence_score) ∧
    ((xs.foldl (fun best f =>
        if best.confidence_score < f.confidence_score then f else best) b) = b ∨
      ∃ pre post,
        xs = pre ++ (xs.foldl (fun best f =>
          if best.confidence_score < f.confidence_score then f else best) b) :: post ∧
        b.confidence_score <
          (xs.foldl (fun best f =>
            if best.confidence_score < f.confidence_score then f else best) b).confidence_score ∧
        ∀ c ∈ pre, c.confidence_score <
          (xs.foldl (fun best f =>
            if best.confidence_score < f.confidence_score then f else best) b).confidence_score) := by
  induction xs with
  | nil => intro b; exact ⟨le_rfl, by simp, Or.inl rfl⟩
  | cons f xs ih =>
    intro b
    simp only [List.foldl_cons]
    by_cases hcmp : b.confidence_score < f.confidence_score
    · rw [if_pos hcmp]
      obtain ⟨h1, h2, h3⟩ := ih f
      refine ⟨le_of_lt (lt_of_lt_of_le hcmp h1), ?_, ?_⟩
      · intro c hc
        rcases List.mem_cons.mp hc with rfl | hc
        · exact h1
        · exact h2 c hc
      · rcases h3 with heq | ⟨pre, post, heq, hlt, hpre⟩
        · refine Or.inr ⟨[], xs, ?_, ?_, by simp⟩
          · rw [heq]; rfl
          · rw [heq]; exact hcmp
        · refine Or.inr ⟨f :: pre, post, congrArg (List.cons f) heq, lt_trans hcmp hlt, ?_⟩
          intro c hc
          rcases List.mem_cons.mp hc with rfl | hc
          · exact hlt
          · exact hpre c hc
    · rw [if_neg hcmp]
      push_neg at hcmp
      obtain ⟨h1, h2, h3⟩ := ih b
      refine ⟨h1, ?_, ?_⟩
      · intro c hc
        rcases List.mem_cons.mp hc with rfl | hc
        · exact le_trans hcmp h1
        · exact h2 c hc
      · rcases h3 with heq | ⟨pre, post, heq, hlt, hpre⟩
        · exact Or.inl heq
        · refine Or.inr ⟨f :: pre, post, congrArg (List.cons f) heq, hlt, ?_⟩
          intro c hc
          rcases List.mem_cons.mp hc with rfl | hc
          · exact lt_of_le_of_lt hcmp hlt
          · exact hpre c hc

/-- `pyMaxByConf` of a non-empty list returns its first-seen maximum. -/
theorem pyMaxByConf_isFirstMax (x : ExtractedField) (xs : List ExtractedField) :
    ∃ m, pyMaxByConf (x :: xs) = some m ∧ isFirstMax (x :: xs) m := by
  obtain ⟨h1, h2, h3⟩ := pyMaxFold_spec xs x
  refine ⟨_, rfl, ?_, ?_⟩
  · rcases h3 with heq | ⟨pre, post, heq, hlt, hpre⟩
    · exact ⟨[], xs, by rw [heq]; rfl, by simp⟩
    · refine ⟨x :: pre, post, congrArg (List.cons x) heq, ?_⟩
      intro c hc
      rcases List.mem_cons.mp hc with rfl | hc
      · exact hlt
      · exact hpre c hc
  · intro c hc
    rcases List.mem_cons.mp hc with rfl | hc
    · exact h1
    · exact h2 c hc

/-- A chunk candidate with a non-null but empty-string raw value. -/
def c2Candidate : ExtractedField :=
  { field_id := ("amount").toList
    raw_value := some (JsonValue.str [])
    normalized_value := none
    confidence_score := 9 / 10
    citations := JsonValue.arr [] }

/-- The field definition of the C2 instances. -/
def c2FieldDef : FieldDef :=
  { field_id := ("amount").toList
    field_name := ("Amount").toList
    field_type := ("TEXT").toList }

/-- **C2 counterexample.** The claim says the merge keeps the
maximum-confidence candidate among those with *non-null* raw value.
A single chunk reporting the non-null empty string `""` with
confidence 0.9 is the unique such candidate, so the claim forces the
merge to return it — but the source tests Python truthiness
(`field_data.get('raw_value')`), treats `""` as absent, and returns
the zero-confidence placeholder instead. -/
theorem c2_empty_string_counterexample :
    c2Candidate.raw_value ≠ none ∧
    mergeChunkResults [[c2Candidate]] [c2FieldDef] = [nullField (("amount").toList)] ∧
    nullField (("amount").toList) ≠ c2Candidate := by
  refine ⟨by simp [c2Candidate], rfl, ?_⟩
  intro h
  have hc := congrArg ExtractedField.confidence_score h
  simp only [nullField, c2Candidate] at hc
  norm_num at hc

/-- **C2 amended.** For every list of per-chunk candidate lists and
every field definition in the input, the merge returns one result per
definition; the result for a field is drawn from the per-chunk
candidates — for each chunk, the first entry carrying the field's id,
kept only when its `raw_value` is *truthy* (non-null and non-empty /
non-zero: Python truthiness, so an empty string counts as absent) —
and is the candidate with the maximum `confidence_score` among them,
ties broken by first-seen order; if no chunk contributes a truthy
`raw_value`, the result is the placeholder with null raw and
normalized values, confidence 0.0 and empty citations. -/
theorem c2_merge_amended (chunkResults : List (List ExtractedField))
    (fds : List FieldDef) (fd : FieldDef) (hfd : fd ∈ fds) :
    mergeChunkResults chunkResults fds = fds.map (mergeField chunkResults) ∧
    mergeField chunkResults fd ∈ mergeChunkResults chunkResults fds ∧
    (fieldCandidates chunkResults fd.field_id = [] →
      mergeField chunkResults fd = nullField fd.field_id) ∧
    (fieldCandidates chunkResults fd.field_id ≠ [] →
      isFirstMax (fieldCandidates chunkResults fd.field_id) (mergeField chunkResults fd)) := by
  refine ⟨rfl, List.mem_map_of_mem _ hfd, ?_, ?_⟩
  · intro hempty
    simp [mergeField, hempty, pyMaxByConf]
  · intro hne
    obtain ⟨x, xs, hxs⟩ := List.exists_cons_of_ne_nil hne
    obtain ⟨m, hm, hmax⟩ := pyMaxByConf_isFirstMax x xs
    have : mergeField chunkResults fd = m := by
      simp [mergeField, hxs, hm]
    rw [this, hxs]
    exact hmax

/-- A chunk candidate with a truthy raw value, for the C2 witness. -/
def c2Truthy : ExtractedField :=
  { field_id := ("amount").toList
    raw_value := some (JsonValue.str (("5").toList))
    normalized_value := some (("5").toList)
    confidence_score := 3 / 5
    citations := JsonValue.arr [] }

/-- Witness for C2 on a one-chunk, one-field instance with a truthy
candidate. -/
theorem c2_merge_amended_witness :
    c2FieldDef ∈ [c2FieldDef] ∧
    (mergeChunkResults [[c2Truthy]] [c2FieldDef] =
        [c2FieldDef].map (mergeField [[c2Truthy]]) ∧
      mergeField [[c2Truthy]] c2FieldDef ∈ mergeChunkResults [[c2Truthy]] [c2FieldDef] ∧
      (fieldCandidates [[c2Truthy]] c2FieldDef.field_id = [] →
        mergeField [[c2Truthy]] c2FieldDef = nullField c2FieldDef.field_id) ∧
      (fieldCandidates [[c2Truthy]] c2FieldDef.field_id ≠ [] →
        isFirstMax (fieldCandidates [[c2Truthy]] c2FieldDef.field_id)
          (mergeField [[c2Truthy]] c2FieldDef))) :=
  ⟨List.mem_singleton.mpr rfl,
   c2_merge_amended [[c2Truthy]] [c2FieldDef] c2FieldDef (List.mem_singleton.mpr rfl)⟩

/-! ## C1: output cardinality of response parsing -/

/-- A validated item carries the `field_id` of the definition that
matched it. -/
theorem pyItemStep_some_mem (item : JsonValue) (fds : List FieldDef)
    (f : ExtractedField) (h : pyItemStep item fds = Except.ok (some f)) :
    ∃ fd ∈ fds, f.field_id = fd.field_id := by
  unfold pyItemStep at h
  split at h
  · -- dict item
    split at h
    · exact absurd h (by simp)
    · rename_i fidVal hfid
      split at h
      · exact absurd h (by simp)
      · rename_i fd hfd
        refine ⟨fd, List.mem_of_find?_eq_some hfd, ?_⟩
        -- the raw_value shape and the float conversion remain
        split at h <;> dsimp only [] at h <;> split at h <;>
          first
            | exact Except.noConfusion h
            | (simp only [Except.ok.injEq, Option.some.injEq] at h
               rw [← h])
  · split at h <;> exact absurd h (by simp)
  · split at h <;> exact absurd h (by simp)
  · exact absurd h (by simp)

/-- Every field produced by the validation loop carries the id of some
input definition (unknown ids are discarded). -/
theorem processItems_subset (items : List JsonValue) :
    ∀ (fds : List FieldDef) (mid : List ExtractedField),
      processItems items fds = Except.ok mid →
      ∀ f ∈ mid, ∃ fd ∈ fds, f.field_id = fd.field_id := by
  induction items with
  | nil =>
    intro fds mid h f hf
    simp only [processItems, Except.ok.injEq] at h
    subst h
    simp at hf
  | cons item rest ih =>
    intro fds mid h f hf
    simp only [processItems] at h
    split at h
    · exact absurd h (by simp)
    · exact ih fds mid h f hf
    · rename_i f0 hstep
      cases hrest : processItems rest fds with
      | error e => rw [hrest] at h; exact absurd h (by simp [Except.map])
      | ok mid' =>
        rw [hrest] at h
        simp only [Except.map, Except.ok.injEq] at h
        subst h
        rcases List.mem_cons.mp hf with rfl | hf
        · exact pyItemStep_some_mem item fds f hstep
        · exact ih fds mid' hrest f hf

/-- The completion loop only appends placeholders for definition ids. -/
theorem ensureAll_append (fds : List FieldDef) :
    ∀ acc : List ExtractedField,
      ∃ extra, ensureAll acc fds = acc ++ extra ∧
        ∀ f ∈ extra, ∃ fd ∈ fds, f = nullField fd.field_id := by
  induction fds with
  | nil =>
    intro acc
    exact ⟨[], by simp [ensureAll], by simp⟩
  | cons fd fds ih =>
    intro acc
    simp only [ensureAll, List.foldl_cons]
    by_cases hany : acc.any (fun f => f.field_id == fd.field_id) = true
    · rw [if_pos hany]
      obtain ⟨extra, heq, hextra⟩ := ih acc
      exact ⟨extra, heq, fun f hf =>
        (hextra f hf).elim (fun fd' hfd' => ⟨fd', List.mem_cons_of_mem _ hfd'.1, hfd'.2⟩)⟩
    · rw [if_neg hany]
      obtain ⟨extra, heq, hextra⟩ := ih (acc ++ [nullField fd.field_id])
      refine ⟨nullField fd.field_id :: extra, ?_, ?_⟩
      · show ensureAll (acc ++ [nullField fd.field_id]) fds =
          acc ++ nullField fd.field_id :: extra
        rw [heq, List.append_assoc]
        rfl
      · intro f hf
        rcases List.mem_cons.mp hf with rfl | hf
        · exact ⟨fd, List.mem_cons_self _ _, rfl⟩
        · exact (hextra f hf).elim (fun fd' hfd' => ⟨fd', List.mem_cons_of_mem _ hfd'.1, hfd'.2⟩)

/-- After completion, every input definition id is present. -/
theorem ensureAll_covers (fds : List FieldDef) :
    ∀ (acc : List ExtractedField) (fd : FieldDef), fd ∈ fds →
      ∃ f ∈ ensureAll acc fds, f.field_id = fd.field_id := by
  induction fds with
  | nil => intro acc fd h; simp at h
  | cons fd0 fds ih =>
    intro acc fd hfd
    have hstep : ensureAll acc (fd0 :: fds) =
        ensureAll (if (acc.any fun f => f.field_id == fd0.field_id) = true
          then acc else acc ++ [nullField fd0.field_id]) fds := by
      simp only [ensureAll, List.foldl_cons]
    rw [hstep]
    rcases List.mem_cons.mp hfd with rfl | hfd
    · by_cases hany : (acc.any fun f => f.field_id == fd.field_id) = true
      · rw [if_pos hany]
        obtain ⟨f, hfmem, hfid⟩ := List.any_eq_true.mp hany
        obtain ⟨extra, heq, _⟩ := ensureAll_append fds acc
        refine ⟨f, ?_, beq_iff_eq.mp hfid⟩
        rw [heq]
        exact List.mem_append_left _ hfmem
      · rw [if_neg hany]
        obtain ⟨extra, heq, _⟩ := ensureAll_append fds (acc ++ [nullField fd.field_id])
        refine ⟨nullField fd.field_id, ?_, rfl⟩
        rw [heq]
        exact List.mem_append_left _ (List.mem_append_right _ (List.mem_singleton.mpr rfl))
    · by_cases hany : (acc.any fun f => f.field_id == fd0.field_id) = true
      · rw [if_pos hany]
        exact ih acc fd hfd
      · rw [if_neg hany]
        exact ih (acc ++ [nullField fd0.field_id]) fd hfd

/-- Completion preserves distinctness of the produced ids. -/
theorem ensureAll_nodup (fds : List FieldDef) :
    ∀ acc : List ExtractedField,
      (acc.map ExtractedField.field_id).Nodup →
      ((ensureAll acc fds).map ExtractedField.field_id).Nodup := by
  induction fds with
  | nil => intro acc h; simpa [ensureAll] using h
  | cons fd fds ih =>
    intro acc hacc
    simp only [ensureAll, List.foldl_cons]
    by_cases hany : acc.any (fun f => f.field_id == fd.field_id) = true
    · rw [if_pos hany]; exact ih acc hacc
    · rw [if_neg hany]
      refine ih (acc ++ [nullField fd.field_id]) ?_
      rw [List.map_append]
      simp only [List.map_cons, List.map_nil, nullField]
      refine List.Nodup.append hacc (by simp) ?_
      intro a ha hb
      simp only [List.mem_singleton] at hb
      subst hb
      obtain ⟨f, hfmem, hfid⟩ := List.mem_map.mp ha
      exact hany (List.any_eq_true.mpr ⟨f, hfmem, by rw [hfid]; exact beq_self_eq_true _⟩)

/-- When the response's located span decodes to an array,
`_parse_response` is the validation loop followed by completion. -/
theorem parseResponse_of_parsedItems (resp : Str) (fds : List FieldDef)
    (items : List JsonValue) (h : parsedItems resp = some items) :
    parseResponse resp fds =
      (processItems items fds).map (fun validated => ensureAll validated fds) := by
  unfold parsedItems at h
  unfold parseResponse
  split at h
  · exact absurd h (by simp)
  · rename_i span hspan
    split at h
    · rename_i items' hload
      simp only [Option.some.injEq] at h
      subst h
      rw [hload]
    · exact absurd h (by simp)

/-- **C1 amended.** For every definition list with distinct field_ids
and every response whose located span decodes to a JSON array and
whose validation loop completes without raising, parsing returns the
validated items completed with placeholders; every returned field is
either a validated item or a synthesized null/zero-confidence
placeholder, and unknown field_ids are discarded.  When the validated
items carry at most one entry per field_id — i.e. the model did not
repeat a known field_id — the output has exactly N results with each
input field_id present exactly once.  (The unamended claim fails when
the model repeats a field_id: both copies are kept.) -/
theorem c1_parse_cardinality_amended (resp : Str) (fds : List FieldDef)
    (items : List JsonValue) (mid : List ExtractedField)
    (hitems : parsedItems resp = some items)
    (hmid : processItems items fds = Except.ok mid)
    (hfds : (fds.map FieldDef.field_id).Nodup)
    (hmidnd : (mid.map ExtractedField.field_id).Nodup) :
    parseResponse resp fds = Except.ok (ensureAll mid fds) ∧
    (ensureAll mid fds).length = fds.length ∧
    ((ensureAll mid fds).map ExtractedField.field_id).Perm (fds.map FieldDef.field_id) ∧
    ∀ f ∈ ensureAll mid fds, f ∈ mid ∨ f = nullField f.field_id := by
  have h1 : parseResponse resp fds = Except.ok (ensureAll mid fds) := by
    rw [parseResponse_of_parsedItems resp fds items hitems, hmid]
    rfl
  have hsubset : ∀ f ∈ ensureAll mid fds, f.field_id ∈ fds.map FieldDef.field_id := by
    intro f hf
    obtain ⟨extra, heq, hextra⟩ := ensureAll_append fds mid
    rw [heq] at hf
    rcases List.mem_append.mp hf with hf | hf
    · obtain ⟨fd, hfd, hid⟩ := processItems_subset items fds mid hmid f hf
      rw [hid]
      exact List.mem_map_of_mem _ hfd
    · obtain ⟨fd, hfd, rfl⟩ := hextra f hf
      exact List.mem_map_of_mem _ hfd
  have hnd : ((ensureAll mid fds).map ExtractedField.field_id).Nodup :=
    ensureAll_nodup fds mid hmidnd
  have hperm : ((ensureAll mid fds).map ExtractedField.field_id).Perm
      (fds.map FieldDef.field_id) := by
    refine List.perm_of_nodup_nodup_toFinset_eq hnd hfds ?_
    ext a
    simp only [List.mem_toFinset]
    constructor
    · intro hmem
      obtain ⟨f, hf, rfl⟩ := List.mem_map.mp hmem
      exact hsubset f hf
    · intro ha
      obtain ⟨fd, hfd, rfl⟩ := List.mem_map.mp ha
      obtain ⟨f, hf, hid⟩ := ensureAll_covers fds mid fd hfd
      rw [← hid]
      exact List.mem_map_of_mem _ hf
  refine ⟨h1, ?_, hperm, ?_⟩
  · have hlen := hperm.length_eq
    rwa [List.length_map, List.length_map] at hlen
  · intro f hf
    obtain ⟨extra, heq, hextra⟩ := ensureAll_append fds mid
    rw [heq] at hf
    rcases List.mem_append.mp hf with hf | hf
    · exact Or.inl hf
    · obtain ⟨fd, _, rfl⟩ := hextra f hf
      exact Or.inr rfl

/-- The one-field definition list of the C1 instances. -/
def c1FieldDef : FieldDef :=
  { field_id := ("a").toList
    field_name := ("A").toList
    field_type := ("TEXT").toList }

/-- A response repeating the known field id `a` twice. -/
def c1Resp : Str :=
  ("[\x7b\"field_id\": \"a\"\x7d, \x7b\"field_id\": \"a\"\x7d]").toList

/-- **C1 counterexample.** For the one-element definition list `[a]`
(`N = 1`) and a model response whose array repeats `field_id` `a`,
parsing succeeds but returns 2 field results — `a` appears twice, so
the output does not contain exactly one result per input definition. -/
theorem c1_duplicate_counterexample :
    (parseResponse c1Resp [c1FieldDef]).toOption.map List.length = some 2 ∧
    [c1FieldDef].length = 1 := by
  exact ⟨rfl, rfl⟩

/-- Witness for C1 on the empty-array response `"[]"`. -/
theorem c1_parse_cardinality_amended_witness :
    parsedItems (("[]").toList) = some [] ∧
    processItems [] [c1FieldDef] = Except.ok [] ∧
    (parseResponse (("[]").toList) [c1FieldDef] = Except.ok (ensureAll [] [c1FieldDef]) ∧
     (ensureAll [] [c1FieldDef]).length = [c1FieldDef].length ∧
     ((ensureAll [] [c1FieldDef]).map ExtractedField.field_id).Perm
       ([c1FieldDef].map FieldDef.field_id) ∧
     ∀ f ∈ ensureAll [] [c1FieldDef], f ∈ ([] : List ExtractedField) ∨
       f = nullField f.field_id) :=
  ⟨rfl, rfl,
   c1_parse_cardinality_amended (("[]").toList) [c1FieldDef] [] [] rfl rfl
     (by decide) (by decide)⟩

/-! ## C5: response parsing and the located JSON span -/

/-- A response containing the well-formed JSON array `[1, 2]` followed
by a stray closing bracket. -/
def c5Resp : Str := ("[1, 2] ]").toList

/-- Whether a string decodes to a JSON array (a well-formed JSON array
in the claim's sense). -/
def decodesToArr (s : Str) : Bool :=
  match jsonLoads s with
  | some (JsonValue.arr _) => true
  | _ => false

/-- **C5 counterexample.** The claim's "whenever the response contains a
well-formed JSON array, parsing succeeds" fails: `"[1, 2] ]"` contains
the well-formed array `[1, 2]` as a substring, but the bare-array
regex spans from the first `[` to the *last* `]`, the located text
`"[1, 2] ]"` does not decode, and parsing raises `ExtractionError`. -/
theorem c5_trailing_bracket_counterexample :
    decodesToArr (("[1, 2]").toList) = true ∧
    strContains (("[1, 2]").toList) c5Resp = true ∧
    locateJsonSpan c5Resp = some c5Resp ∧
    (parseResponse c5Resp []).toOption = none := by
  exact ⟨rfl, rfl, rfl, rfl⟩

/-- **C5 amended.** Parsing locates the fenced candidate if one
matches, else the span from the first `[` to the last `]`; it raises
`ExtractionError` exactly when no such span exists, the located span
does not decode to a JSON array, or the decoded items make the
validation loop raise (a non-dict item or an unconvertible confidence
value).  A response containing a well-formed JSON array can therefore
still fail when surrounding text extends the located span. -/
theorem c5_parse_error_amended (resp : Str) (fds : List FieldDef) :
    (parseResponse resp fds).toOption = none ↔
      locateJsonSpan resp = none ∨
      (∃ span, locateJsonSpan resp = some span ∧ parsedItems resp = none) ∨
      (∃ items, parsedItems resp = some items ∧
        (processItems items fds).toOption = none) := by
  cases hloc : locateJsonSpan resp with
  | none =>
    have hpr : parseResponse resp fds =
        Except.error (("Failed to parse response: No JSON array found in response").toList) := by
      unfold parseResponse; rw [hloc]
    have hpi : parsedItems resp = none := by
      unfold parsedItems; rw [hloc]
    simp [hpr, hpi, Except.toOption]
  | some span =>
    cases hload : jsonLoads span with
    | none =>
      have hpr : parseResponse resp fds =
          Except.error (("Failed to parse LLM response as JSON").toList) := by
        unfold parseResponse; rw [hloc]; simp only [hload]
      have hpi : parsedItems resp = none := by
        unfold parsedItems; rw [hloc]; simp only [hload]
      simp [hpr, hpi, hloc, Except.toOption]
    | some v =>
      cases v with
      | arr items =>
        have hpr : parseResponse resp fds =
            (processItems items fds).map (fun validated => ensureAll validated fds) := by
          unfold parseResponse; rw [hloc]; simp only [hload]
        have hpi : parsedItems resp = some items := by
          unfold parsedItems; rw [hloc]; simp only [hload]
        cases hproc : processItems items fds with
        | ok mid => simp [hpr, hpi, hproc, hloc, Except.toOption, Except.map]
        | error e => simp [hpr, hpi, hproc, hloc, Except.toOption, Except.map]
      | null =>
        have hpr : parseResponse resp fds =
            Except.error (("Failed to parse response: Response is not a JSON array").toList) := by
          unfold parseResponse; rw [hloc]; simp only [hload]
        have hpi : parsedItems resp = none := by
          unfold parsedItems; rw [hloc]; simp only [hload]
        simp [hpr, hpi, hloc, Except.toOption]
      | bool b =>
        have hpr : parseResponse resp fds =
            Except.error (("Failed to parse response: Response is not a JSON array").toList) := by
          unfold parseResponse; rw [hloc]; simp only [hload]
        have hpi : parsedItems resp = none := by
          unfold parsedItems; rw [hloc]; simp only [hload]
        simp [hpr, hpi, hloc, Except.toOption]
      | num q =>
        have hpr : parseResponse resp fds =
            Except.error (("Failed to parse response: Response is not a JSON array").toList) := by
          unfold parseResponse; rw [hloc]; simp only [hload]
        have hpi : parsedItems resp = none := by
          unfold parsedItems; rw [hloc]; simp only [hload]
        simp [hpr, hpi, hloc, Except.toOption]
      | str s =>
        have hpr : parseResponse resp fds =
            Except.error (("Failed to parse response: Response is not a JSON array").toList) := by
          unfold parseResponse; rw [hloc]; simp only [hload]
        have hpi : parsedItems resp = none := by
          unfold parsedItems; rw [hloc]; simp only [hload]
        simp [hpr, hpi, hloc, Except.toOption]
      | obj entries =>
        have hpr : parseResponse resp fds =
            Except.error (("Failed to parse response: Response is not a JSON array").toList) := by
          unfold parseResponse; rw [hloc]; simp only [hload]
        have hpi : parsedItems resp = none := by
          unfold parsedItems; rw [hloc]; simp only [hload]
        simp [hpr, hpi, hloc, Except.toOption]

/-! ## C6: the review table's final value -/

/-- **C6.** For a document whose selected extraction is COMPLETED and a
template field with a matching extracted result: the row contains the
cell built from that result and the field's review; when no review
exists the cell's review status is PENDING and its final value is the
extraction's normalized value; when a review exists, the final value
is the review's manual value if that is present and non-empty, and the
extraction's normalized value otherwise. -/
theorem c6_final_value (templateFields : List FieldDef) (er : ExtractedRecordM)
    (reviews : List ReviewRecordM) (fd : FieldDef) (f : ExtractedField)
    (hfd : fd ∈ templateFields)
    (hst : er.extraction_status = statusCOMPLETED)
    (hfind : er.extracted_fields.find? (fun g => g.field_id == fd.field_id) = some f) :
    (fd.field_id, buildCell fd (some f) (lastReviewFor reviews fd.field_id)) ∈
      buildRowFields templateFields (some er) reviews ∧
    (lastReviewFor reviews fd.field_id = none →
      (buildCell fd (some f) (lastReviewFor reviews fd.field_id)).final_value =
        f.normalized_value ∧
      (buildCell fd (some f) (lastReviewFor reviews fd.field_id)).review_status =
        reviewPENDING) ∧
    (∀ r, lastReviewFor reviews fd.field_id = some r →
      (∀ mv, r.manual_value = some mv → mv ≠ [] →
        (buildCell fd (some f) (lastReviewFor reviews fd.field_id)).final_value = some mv) ∧
      (r.manual_value = none →
        (buildCell fd (some f) (lastReviewFor reviews fd.field_id)).final_value =
          f.normalized_value) ∧
      (r.manual_value = some [] →
        (buildCell fd (some f) (lastReviewFor reviews fd.field_id)).final_value =
          f.normalized_value)) := by
  refine ⟨?_, ?_, ?_⟩
  · unfold buildRowFields
    dsimp only []
    rw [if_pos hst]
    refine List.mem_map.mpr ⟨fd, hfd, ?_⟩
    rw [hfind]
  · intro hnone
    rw [hnone]
    simp [buildCell, reviewPENDING]
  · intro r hr
    rw [hr]
    refine ⟨?_, ?_, ?_⟩
    · intro mv hmv hne
      simp only [buildCell]
      rw [hmv]
      cases mv with
      | nil => exact absurd rfl hne
      | cons a t => simp
    · intro hmv
      simp only [buildCell]
      rw [hmv]
    · intro hmv
      simp only [buildCell]
      rw [hmv]
      simp

/-- The extracted result of the C6 witness. -/
def c6Extracted : ExtractedField :=
  { field_id := ("a").toList
    raw_value := some (JsonValue.str (("x ").toList))
    normalized_value := some (("x").toList)
    confidence_score := 1
    citations := JsonValue.arr [] }

/-- The COMPLETED extraction record of the C6 witness. -/
def c6Record : ExtractedRecordM :=
  { id := 1
    document_id := 2
    field_template_id := 3
    extraction_status := statusCOMPLETED
    extracted_fields := [c6Extracted]
    error_message := none }

/-- Witness for C6 with no review on file. -/
theorem c6_final_value_witness :
    c1FieldDef ∈ [c1FieldDef] ∧
    c6Record.extraction_status = statusCOMPLETED ∧
    c6Record.extracted_fields.find? (fun g => g.field_id == c1FieldDef.field_id) =
      some c6Extracted ∧
    ((c1FieldDef.field_id,
        buildCell c1FieldDef (some c6Extracted) (lastReviewFor [] c1FieldDef.field_id)) ∈
      buildRowFields [c1FieldDef] (some c6Record) [] ∧
    (lastReviewFor [] c1FieldDef.field_id = none →
      (buildCell c1FieldDef (some c6Extracted)
        (lastReviewFor [] c1FieldDef.field_id)).final_value =
          c6Extracted.normalized_value ∧
      (buildCell c1FieldDef (some c6Extracted)
        (lastReviewFor [] c1FieldDef.field_id)).review_status = reviewPENDING) ∧
    (∀ r, lastReviewFor [] c1FieldDef.field_id = some r →
      (∀ mv, r.manual_value = some mv → mv ≠ [] →
        (buildCell c1FieldDef (some c6Extracted)
          (lastReviewFor [] c1FieldDef.field_id)).final_value = some mv) ∧
      (r.manual_value = none →
        (buildCell c1FieldDef (some c6Extracted)
          (lastReviewFor [] c1FieldDef.field_id)).final_value =
            c6Extracted.normalized_value) ∧
      (r.manual_value = some [] →
        (buildCell c1FieldDef (some c6Extracted)
          (lastReviewFor [] c1FieldDef.field_id)).final_value =
            c6Extracted.normalized_value))) :=
  ⟨List.mem_singleton.mpr rfl, rfl, rfl,
   c6_final_value [c1FieldDef] c6Record [] c1FieldDef c6Extracted
     (List.mem_singleton.mpr rfl) rfl rfl⟩

/-! ## C7: the review upsert -/

/-- Updating a review in place does not change its natural key. -/
theorem applyReview_keyPred (rid : Nat) (fid : Str) (d : ReviewCreateM) (r : ReviewRecordM) :
    keyPred rid fid (applyReview r d) = keyPred rid fid r := rfl

/-- `updateFirst` with a key-preserving update leaves every key's row
count unchanged. -/
theorem updateFirst_filter_length (q p : ReviewRecordM → Bool) (f : ReviewRecordM → ReviewRecordM)
    (hpres : ∀ x, q (f x) = q x) :
    ∀ l : List ReviewRecordM, ((updateFirst p f l).filter q).length = (l.filter q).length := by
  intro l
  induction l with
  | nil => rfl
  | cons x xs ih =>
    simp only [updateFirst]
    by_cases hp : p x = true
    · rw [if_pos hp]
      simp only [List.filter_cons, hpres x]
      cases hq : q x <;> simp [ih]
    · rw [if_neg hp]
      simp only [List.filter_cons]
      cases hq : q x <;> simp [ih]

/-- When exactly one row matches, `updateFirst` rewrites that row. -/
theorem updateFirst_filter_singleton (p : ReviewRecordM → Bool)
    (f : ReviewRecordM → ReviewRecordM) (hpres : ∀ x, p (f x) = p x) :
    ∀ (l : List ReviewRecordM) (r : ReviewRecordM),
      l.filter p = [r] → (updateFirst p f l).filter p = [f r] := by
  intro l
  induction l with
  | nil => intro r h; simp at h
  | cons x xs ih =>
    intro r h
    simp only [updateFirst]
    by_cases hp : p x = true
    · rw [if_pos hp]
      rw [List.filter_cons_of_pos hp] at h
      simp only [List.cons.injEq] at h
      obtain ⟨rfl, hnil⟩ := h
      rw [List.filter_cons_of_pos (by rw [hpres]; exact hp), hnil]
    · rw [if_neg hp]
      rw [List.filter_cons_of_neg (by simpa using hp)] at h
      rw [List.filter_cons_of_neg (by simpa using hp)]
      exact ih r h

/-- Appending a fresh review for an unrepresented key preserves the
at-most-one invariant. -/
theorem inv_append_new (reviews : List ReviewRecordM) (d : ReviewCreateM)
    (hinv : reviewKeyInvariant reviews)
    (hnone : reviews.filter (reviewMatches d) = []) :
    reviewKeyInvariant (reviews ++ [newReview d]) := by
  intro rid fid
  rw [List.filter_append]
  by_cases hq : keyPred rid fid (newReview d) = true
  · have hrid : d.extracted_record_id = rid := by
      have := (Bool.and_eq_true _ _).mp hq
      exact beq_iff_eq.mp this.1
    have hfid : d.field_id = fid := by
      have := (Bool.and_eq_true _ _).mp hq
      exact beq_iff_eq.mp this.2
    subst hrid
    subst hfid
    have hfil : reviews.filter (keyPred d.extracted_record_id d.field_id) = [] := hnone
    rw [hfil]
    simp [hq]
  · rw [List.filter_cons_of_neg (by simpa using hq)]
    simp only [List.filter_nil, List.append_nil]
    exact hinv rid fid

/-- Updating the key's single row in place preserves the invariant. -/
theorem inv_updateFirst (reviews : List ReviewRecordM) (d : ReviewCreateM)
    (hinv : reviewKeyInvariant reviews) :
    reviewKeyInvariant (updateFirst (reviewMatches d) (fun r => applyReview r d) reviews) := by
  intro rid fid
  rw [updateFirst_filter_length (keyPred rid fid) (reviewMatches d) _
    (fun x => applyReview_keyPred rid fid d x)]
  exact hinv rid fid

/-- `createReviewRecord`'s success factors through the upsert core. -/
theorem createReviewRecord_ok (ers : List ExtractedRecordM) (reviews : List ReviewRecordM)
    (d : ReviewCreateM) (s : List ReviewRecordM)
    (h : createReviewRecord ers reviews d = Except.ok s) :
    upsertReview reviews d = Except.ok s := by
  unfold createReviewRecord at h
  split at h
  · exact absurd h (by simp)
  · split at h
    · exact absurd h (by simp)
    · exact h

/-- A successful upsert preserves the at-most-one invariant. -/
theorem upsertReview_inv (reviews : List ReviewRecordM) (d : ReviewCreateM)
    (s : List ReviewRecordM) (hinv : reviewKeyInvariant reviews)
    (h : upsertReview reviews d = Except.ok s) : reviewKeyInvariant s := by
  unfold upsertReview at h
  split at h
  · rename_i hnil
    simp only [Except.ok.injEq] at h
    subst h
    exact inv_append_new reviews d hinv hnil
  · simp only [Except.ok.injEq] at h
    subst h
    exact inv_updateFirst reviews d hinv
  · exact absurd h (by simp)

/-- After a successful upsert the key holds exactly one row, carrying
the submission's values. -/
theorem upsertReview_one (reviews : List ReviewRecordM) (d : ReviewCreateM)
    (s : List ReviewRecordM) (h : upsertReview reviews d = Except.ok s) :
    (s.filter (reviewMatches d)).length = 1 ∧
    ∀ r ∈ s.filter (reviewMatches d),
      r.review_status = d.review_status ∧ r.manual_value = d.manual_value ∧
      r.reviewer_notes = d.reviewer_notes := by
  unfold upsertReview at h
  split at h
  · rename_i hnil
    simp only [Except.ok.injEq] at h
    subst h
    rw [List.filter_append, hnil, List.nil_append]
    rw [List.filter_cons_of_pos (by simp [reviewMatches, newReview])]
    refine ⟨rfl, ?_⟩
    intro r hr
    simp only [List.filter_nil, List.mem_singleton] at hr
    subst hr
    exact ⟨rfl, rfl, rfl⟩
  · rename_i r0 hone
    simp only [Except.ok.injEq] at h
    subst h
    rw [updateFirst_filter_singleton (reviewMatches d) _
      (fun x => applyReview_keyPred d.extracted_record_id d.field_id d x) reviews r0 hone]
    refine ⟨rfl, ?_⟩
    intro r hr
    simp only [List.mem_singleton] at hr
    subst hr
    exact ⟨rfl, rfl, rfl⟩
  · exact absurd h (by simp)

/-- One bulk iteration preserves the invariant. -/
theorem bulkStep_inv (o : BulkOutcome) (d : ReviewCreateM)
    (hinv : reviewKeyInvariant o.reviews) :
    reviewKeyInvariant (bulkStep o d).reviews := by
  unfold bulkStep
  split
  · rename_i hnil
    exact inv_append_new o.reviews d hinv hnil
  · exact inv_updateFirst o.reviews d hinv
  · exact hinv

/-- The bulk fold preserves the invariant. -/
theorem bulkFold_inv (datas : List ReviewCreateM) :
    ∀ o : BulkOutcome, reviewKeyInvariant o.reviews →
      reviewKeyInvariant (datas.foldl bulkStep o).reviews := by
  induction datas with
  | nil => intro o h; exact h
  | cons d datas ih =>
    intro o h
    exact ih (bulkStep o d) (bulkStep_inv o d h)

/-- **C7.** Review submission is an upsert keyed by
`(extracted_record_id, field_id)`: after two submissions for the same
key, exactly one stored row carries that key, and its status, manual
value and notes are those of the second submission; moreover both
intermediate states satisfy the at-most-one-row-per-key invariant, and
bulk submission preserves the invariant as well. -/
theorem c7_review_upsert (ers : List ExtractedRecordM) (reviews : List ReviewRecordM)
    (d1 d2 : ReviewCreateM) (s1 s2 : List ReviewRecordM)
    (hinv : reviewKeyInvariant reviews)
    (_hkey : d2.extracted_record_id = d1.extracted_record_id ∧ d2.field_id = d1.field_id)
    (h1 : createReviewRecord ers reviews d1 = Except.ok s1)
    (h2 : createReviewRecord ers s1 d2 = Except.ok s2) :
    (s2.filter (reviewMatches d2)).length = 1 ∧
    (∀ r ∈ s2.filter (reviewMatches d2),
      r.review_status = d2.review_status ∧ r.manual_value = d2.manual_value ∧
      r.reviewer_notes = d2.reviewer_notes) ∧
    reviewKeyInvariant s1 ∧ reviewKeyInvariant s2 ∧
    ∀ datas, reviewKeyInvariant (bulkCreateReviews reviews datas).reviews := by
  have hu1 := createReviewRecord_ok ers reviews d1 s1 h1
  have hinv1 := upsertReview_inv reviews d1 s1 hinv hu1
  have hu2 := createReviewRecord_ok ers s1 d2 s2 h2
  have hinv2 := upsertReview_inv s1 d2 s2 hinv1 hu2
  obtain ⟨hlen, hvals⟩ := upsertReview_one s1 d2 s2 hu2
  exact ⟨hlen, hvals, hinv1, hinv2,
    fun datas => bulkFold_inv datas _ (by intro rid fid; exact hinv rid fid)⟩

/-- The two submissions of the C7 witness. -/
def c7First : ReviewCreateM :=
  { extracted_record_id := 1
    field_id := ("a").toList
    review_status := ("REJECTED").toList
    manual_value := none
    reviewer_notes := none }

def c7Second : ReviewCreateM :=
  { extracted_record_id := 1
    field_id := ("a").toList
    review_status := ("MANUAL_UPDATED").toList
    manual_value := some (("fixed").toList)
    reviewer_notes := some (("typo").toList) }

/-- Witness for C7: two submissions for the key `(1, "a")` against the
record store holding `c6Record` (id 1 would not match; use a store
keyed to the submissions). -/
def c7Record : ExtractedRecordM :=
  { id := 1
    document_id := 2
    field_template_id := 3
    extraction_status := statusCOMPLETED
    extracted_fields := [c6Extracted]
    error_message := none }

theorem c7_review_upsert_witness :
    reviewKeyInvariant [] ∧
    (c7Second.extracted_record_id = c7First.extracted_record_id ∧
      c7Second.field_id = c7First.field_id) ∧
    createReviewRecord [c7Record] [] c7First = Except.ok [newReview c7First] ∧
    createReviewRecord [c7Record] [newReview c7First] c7Second =
      Except.ok [applyReview (newReview c7First) c7Second] ∧
    (([applyReview (newReview c7First) c7Second].filter (reviewMatches c7Second)).length = 1 ∧
     (∀ r ∈ [applyReview (newReview c7First) c7Second].filter (reviewMatches c7Second),
       r.review_status = c7Second.review_status ∧ r.manual_value = c7Second.manual_value ∧
       r.reviewer_notes = c7Second.reviewer_notes) ∧
     reviewKeyInvariant [newReview c7First] ∧
     reviewKeyInvariant [applyReview (newReview c7First) c7Second] ∧
     ∀ datas, reviewKeyInvariant (bulkCreateReviews [] datas).reviews) :=
  ⟨fun _ _ => by simp, ⟨rfl, rfl⟩, rfl, rfl,
   c7_review_upsert [c7Record] [] c7First c7Second
     [newReview c7First] [applyReview (newReview c7First) c7Second]
     (fun _ _ => by simp) ⟨rfl, rfl⟩ rfl rfl⟩

/-! ## C8: extraction requires a PARSED document -/

/-- **C8.** For a document whose status is not PARSED: the trigger
endpoint rejects the request (no task is queued), and the worker task,
were it to run anyway, returns an error without creating or mutating
any `ExtractedRecord` — the record store is returned unchanged. -/
theorem c8_parsed_guard (docs : List DocumentM) (templates : List FieldTemplateM)
    (ers : List ExtractedRecordM) (llm : Str → Str) (freshId : Nat)
    (documentId templateId : Nat) (forceReprocess : Bool) (doc : DocumentM)
    (hdoc : docs.find? (fun d => d.id == documentId) = some doc)
    (hstatus : doc.upload_status ≠ uploadPARSED) :
    (∃ e, triggerExtraction docs ers documentId templateId forceReprocess =
      Except.error e) ∧
    (∃ msg, extractDocumentTask llm docs templates ers freshId documentId templateId =
      (TaskStatus.error msg, ers)) := by
  constructor
  · refine ⟨("400: Document must be parsed before extraction").toList, ?_⟩
    unfold triggerExtraction
    rw [hdoc]
    dsimp only []
    rw [if_pos hstatus]
  · refine ⟨("Document not yet parsed").toList, ?_⟩
    unfold extractDocumentTask
    rw [hdoc]
    dsimp only []
    rw [if_pos hstatus]

/-- The unparsed document of the C8 witness. -/
def c8Doc : DocumentM :=
  { id := 7
    project_id := 1
    upload_status := ("UPLOADED").toList
    parsed_text := none }

/-- Witness for C8 on an UPLOADED document. -/
theorem c8_parsed_guard_witness :
    [c8Doc].find? (fun d => d.id == 7) = some c8Doc ∧
    c8Doc.upload_status ≠ uploadPARSED ∧
    ((∃ e, triggerExtraction [c8Doc] [] 7 3 false = Except.error e) ∧
     (∃ msg, extractDocumentTask (fun p => p) [c8Doc] [] [] 0 7 3 =
       (TaskStatus.error msg, ([] : List ExtractedRecordM)))) :=
  ⟨rfl, by decide,
   c8_parsed_guard [c8Doc] [] [] (fun p => p) 0 7 3 false c8Doc rfl (by decide)⟩

/-! ## C10: the prompt truncates the document text at 30,000 characters -/

/-- **C10.** The extraction prompt depends on the document text only
through its first 30,000 characters: the prompt is a fixed head,
`document_text[:30000]`, and a fixed tail.  The default chunking
threshold and chunk size is 50,000 characters, and any text longer
than the threshold yields a first chunk of exactly 50,000 characters —
of which the prompt shows the model only the first 30,000. -/
theorem c10_prompt_truncation :
    (∀ (text : Str) (fds : List FieldDef),
      buildExtractionPrompt text fds =
        promptHead fds ++ text.take 30000 ++ promptTail fds) ∧
    (∀ (text : Str) (fds : List FieldDef),
      buildExtractionPrompt text fds = buildExtractionPrompt (text.take 30000) fds) ∧
    extractDefaultChunkSize = 50000 ∧
    (∀ text : Str, extractDefaultChunkSize < text.length →
      ∃ c ∈ createChunks text extractDefaultChunkSize 500, c.length = 50000) := by
  refine ⟨fun text fds => rfl, ?_, rfl, ?_⟩
  · intro text fds
    unfold buildExtractionPrompt
    rw [List.take_take]
    simp
  · intro text hlen
    obtain ⟨tail, htail⟩ := createChunksGo_cons text extractDefaultChunkSize 500
      (text.length + 1) 0 (by omega) (by omega)
    refine ⟨(text.drop 0).take extractDefaultChunkSize, ?_, ?_⟩
    · unfold createChunks
      rw [htail]
      exact List.mem_cons_self _ _
    · rw [List.length_take, List.length_drop]
      unfold extractDefaultChunkSize at hlen ⊢
      omega

/-- Witness for C10's conditional conjunct at a 50,001-character text. -/
theorem c10_prompt_truncation_witness :
    extractDefaultChunkSize < (List.replicate 50001 'a').length ∧
    ∃ c ∈ createChunks (List.replicate 50001 'a') extractDefaultChunkSize 500,
      c.length = 50000 :=
  ⟨by rw [List.length_replicate]; norm_num [extractDefaultChunkSize],
   c10_prompt_truncation.2.2.2 (List.replicate 50001 'a')
     (by rw [List.length_replicate]; norm_num [extractDefaultChunkSize])⟩

end LegalTabular
